import Mathlib

/-!
Shallow embedding of the analytics aggregation engine of
`src/app/api/chat/route.ts` (record normalizer, single-dimension
breakdowns, temporal bucketing, specific-date lookup, descriptive
statistics), together with theorems settling the frozen claims about it.

JavaScript platform primitives used by the route (`String.prototype.trim`,
`parseInt`, `new Date`, `Date` accessors, `toISOString`, `toFixed`,
template-literal number printing, `Array.prototype.sort`) are modelled
explicitly below; each model carries a doc comment stating its scope.
All amounts and timestamps are integers (timestamps in minutes since the
Unix epoch), so every definition is executable and kernel-evaluable.
-/

/-! ## Models of JavaScript string and number primitives -/

/-- Model of the JavaScript whitespace test used by `String.prototype.trim`,
restricted to the ASCII whitespace characters (space, tab, LF, VT, FF, CR).
Unicode whitespace is out of scope for the data in this repository. -/
def isJSWhitespace (c : Char) : Bool :=
  c.toNat = 32 || c.toNat = 9 || c.toNat = 10 || c.toNat = 11 || c.toNat = 12 || c.toNat = 13

/-- Model of `String.prototype.trim`: drop leading and trailing whitespace. -/
def jsTrim (s : String) : String :=
  String.mk (((s.data.dropWhile isJSWhitespace).reverse.dropWhile isJSWhitespace).reverse)

/-- Lexicographic comparison of char lists by code point; `lexLeChars a b`
is true when `a` is less than or equal to `b`. -/
def lexLeChars : List Char → List Char → Bool
  | [], _ => true
  | _ :: _, [] => false
  | a :: as, b :: bs =>
      if a.toNat < b.toNat then true
      else if b.toNat < a.toNat then false
      else lexLeChars as bs

/-- Model of JavaScript string comparison (the default `Array.prototype.sort`
order, and `localeCompare` on the digit-and-hyphen bucket keys this engine
sorts): code-unit lexicographic order. For the BMP characters appearing in
this data, UTF-16 code units coincide with code points. -/
def jsStrLe (a b : String) : Bool := lexLeChars a.data b.data

/-- Decimal digit character for a value in 0..9. -/
def digitChar (d : Nat) : Char := Char.ofNat (48 + d)

/-- Fuel-driven accumulation of decimal digits, most significant first.
The fuel argument makes the recursion structural so that the kernel can
evaluate it; `natToDec` supplies sufficient fuel. -/
def natToDecAux : Nat → Nat → List Char
  | 0, _ => []
  | f + 1, n => if n < 10 then [digitChar n] else natToDecAux f (n / 10) ++ [digitChar (n % 10)]

/-- Model of JavaScript number-to-string conversion for non-negative
integers (as produced by template literals such as `${data.totalQuantity}`). -/
def natToDec (n : Nat) : String := String.mk (natToDecAux (n + 1) n)

/-- Model of JavaScript number-to-string conversion for integers. -/
def intToDec (i : Int) : String :=
  if i < 0 then "-" ++ natToDec i.natAbs else natToDec i.toNat

/-- Model of `String(x).padStart(2, '0')` on a non-negative integer. -/
def pad2 (n : Nat) : String := if n < 10 then "0" ++ natToDec n else natToDec n

/-- Zero-pad a number below 10000 to four digits, as in the date part of
`Date.prototype.toISOString` for years 0..9999. -/
def pad4 (n : Nat) : String :=
  if n < 10 then "000" ++ natToDec n
  else if n < 100 then "00" ++ natToDec n
  else if n < 1000 then "0" ++ natToDec n
  else natToDec n

/-- Value of a list of decimal digits, most significant first. -/
def digitsToNat (ds : List Nat) : Nat := ds.foldl (fun a d => 10 * a + d) 0

/-- Model of the ECMAScript `parseInt` with an unspecified radix, restricted
to decimal input: skip leading whitespace, read an optional sign and then a
longest run of decimal digits; `none` models the `NaN` result when no digit
follows. The automatic hexadecimal (`0x`) detection of `parseInt` is not
modelled; no claim depends on it. -/
def parseIntJS (s : String) : Option Int :=
  match s.data.dropWhile isJSWhitespace with
  | '-' :: rest =>
      let ds := rest.takeWhile Char.isDigit
      if ds = [] then none else some (-(digitsToNat (ds.map (fun c => c.toNat - 48)) : Int))
  | '+' :: rest =>
      let ds := rest.takeWhile Char.isDigit
      if ds = [] then none else some (digitsToNat (ds.map (fun c => c.toNat - 48)) : Int)
  | rest =>
      let ds := rest.takeWhile Char.isDigit
      if ds = [] then none else some (digitsToNat (ds.map (fun c => c.toNat - 48)) : Int)

/-! ## Calendar arithmetic

Proleptic-Gregorian conversions between day numbers (days since 1970-01-01)
and civil dates, following the standard era-based algorithms.  These model
the calendar part of the ECMAScript `Date` object. -/

/-- Civil date `(year, month, day)` of a day number (days since 1970-01-01). -/
def civilFromDays (z : Int) : Int × Nat × Nat :=
  let z' := z + 719468
  let era := z'.fdiv 146097
  let doe := (z' - era * 146097).toNat
  let yoe := (doe - doe / 1460 + doe / 36524 - doe / 146096) / 365
  let doy := doe - (365 * yoe + yoe / 4 - yoe / 100)
  let mp := (5 * doy + 2) / 153
  let d := doy - (153 * mp + 2) / 5 + 1
  let m := if mp < 10 then mp + 3 else mp - 9
  (((yoe : Int) + era * 400) + (if m ≤ 2 then 1 else 0), m, d)

/-- Day number (days since 1970-01-01) of a civil date. -/
def daysFromCivil (y : Int) (m d : Nat) : Int :=
  let y' := if m ≤ 2 then y - 1 else y
  let era := y'.fdiv 400
  let yoe := (y' - era * 400).toNat
  let mp := if m > 2 then m - 3 else m + 9
  let doy := (153 * mp + 2) / 5 + d - 1
  let doe := yoe * 365 + yoe / 4 - yoe / 100 + doy
  era * 146097 + (doe : Int) - 719468

/-! ## Model of the ECMAScript time value

Timestamps are minutes since the Unix epoch (the engine never inspects
seconds or milliseconds).  The host's local time zone enters as an explicit
offset `tz` in minutes east of UTC; `Date` component accessors
(`getFullYear`, `getMonth`, `getDate`) read the local civil date, while
`toISOString` reads the UTC civil date. -/

/-- Local civil date of a timestamp under host offset `tz` (minutes). -/
def localCivil (tz t : Int) : Int × Nat × Nat := civilFromDays ((t + tz).fdiv 1440)

/-- Model of `date.getFullYear()` under host offset `tz`. -/
def getFullYear (tz t : Int) : Int := (localCivil tz t).1

/-- Model of `date.getMonth() + 1` (1-based month) under host offset `tz`. -/
def getMonth1 (tz t : Int) : Nat := (localCivil tz t).2.1

/-- Model of `date.getDate()` under host offset `tz`. -/
def getDate (tz t : Int) : Nat := (localCivil tz t).2.2

/-- UTC civil date of a timestamp. -/
def utcCivil (t : Int) : Int × Nat × Nat := civilFromDays (t.fdiv 1440)

/-- Year rendering of the date part of `toISOString` (years 0..9999 are
zero-padded to four digits; the expanded-year forms carry an explicit sign). -/
def isoYearStr (y : Int) : String :=
  if 0 ≤ y ∧ y ≤ 9999 then pad4 y.toNat
  else if 9999 < y then "+" ++ natToDec y.toNat
  else "-" ++ natToDec y.natAbs

/-- Model of `date.toISOString().split('T')[0]`: the UTC calendar day of the
timestamp as `YYYY-MM-DD`. -/
def isoDateString (t : Int) : String :=
  isoYearStr (utcCivil t).1 ++ "-" ++ pad2 (utcCivil t).2.1 ++ "-" ++ pad2 (utcCivil t).2.2

/-- Bucket key built by the monthly aggregations:
`` `${date.getFullYear()}-${String(date.getMonth() + 1).padStart(2, '0')}` ``.
Note that the year is not padded. -/
def monthKeyStr (tz t : Int) : String := intToDec (getFullYear tz t) ++ "-" ++ pad2 (getMonth1 tz t)

/-- Bucket key built by the daily aggregation:
`` `${y}-${MM}-${DD}` `` from the local date components. -/
def dailyKeyStr (tz t : Int) : String := monthKeyStr tz t ++ "-" ++ pad2 (getDate tz t)

/-! ## Model of `new Date(string)` parsing

`Modelled from the spec:` the route delegates date parsing to the host's
`new Date(order_date)`, which is not part of this repository.  Spec §4.2
names the two formats that occur in the data: an ISO string with a
time-and-offset component, and a bare `YYYY-MM-DD` prefix.  The parser
below implements exactly the ECMAScript Date Time String Format semantics
for those two shapes — a bare date is interpreted as UTC midnight, an
explicit offset shifts the wall-clock fields — and returns `none` (Invalid
Date) for everything else.  Engine definitions stay parameterised over an
arbitrary parse function `jsDate`; this concrete parser instantiates them
in witnesses and counterexamples. -/

/-- Two decimal digit characters as a number. -/
def num2 (a b : Char) : Option Nat :=
  if a.isDigit ∧ b.isDigit then some ((a.toNat - 48) * 10 + (b.toNat - 48)) else none

/-- Four decimal digit characters as a number. -/
def num4 (a b c d : Char) : Option Nat :=
  if a.isDigit ∧ b.isDigit ∧ c.isDigit ∧ d.isDigit then
    some (((a.toNat - 48) * 10 + (b.toNat - 48)) * 100 + (c.toNat - 48) * 10 + (d.toNat - 48))
  else none

/-- Timestamp (minutes since epoch) of wall-clock fields at a UTC offset. -/
def mkTimestamp (y : Int) (mo da h mi : Nat) (off : Int) : Int :=
  daysFromCivil y mo da * 1440 + (h * 60 + mi : Nat) - off

/-- Field-range check shared by the parser cases. -/
def validYMDHM (mo da h mi : Nat) : Prop :=
  1 ≤ mo ∧ mo ≤ 12 ∧ 1 ≤ da ∧ da ≤ 31 ∧ h ≤ 23 ∧ mi ≤ 59

instance (mo da h mi : Nat) : Decidable (validYMDHM mo da h mi) := by
  unfold validYMDHM; infer_instance

/-- Parse the ISO shapes of spec §4.2 (bare date, and date-time with `Z` or
a signed `HH:MM` offset, with or without a seconds field), returning the
timestamp in minutes since the epoch together with the UTC offset (minutes)
carried by the string (`0` for a bare date, which ECMAScript reads as UTC).
Seconds are truncated, which never moves a timestamp across a calendar-day
or month boundary. -/
def parseISOPair (s : String) : Option (Int × Int) :=
  match s.data with
  | [y1, y2, y3, y4, '-', m1, m2, '-', d1, d2] =>
      match num4 y1 y2 y3 y4, num2 m1 m2, num2 d1 d2 with
      | some y, some mo, some da =>
          if validYMDHM mo da 0 0 then some (mkTimestamp y mo da 0 0 0, 0) else none
      | _, _, _ => none
  | [y1, y2, y3, y4, '-', m1, m2, '-', d1, d2, 'T', h1, h2, ':', n1, n2, 'Z'] =>
      match num4 y1 y2 y3 y4, num2 m1 m2, num2 d1 d2, num2 h1 h2, num2 n1 n2 with
      | some y, some mo, some da, some h, some mi =>
          if validYMDHM mo da h mi then some (mkTimestamp y mo da h mi 0, 0) else none
      | _, _, _, _, _ => none
  | [y1, y2, y3, y4, '-', m1, m2, '-', d1, d2, 'T', h1, h2, ':', n1, n2, sg, o1, o2, ':', o3, o4] =>
      match num4 y1 y2 y3 y4, num2 m1 m2, num2 d1 d2, num2 h1 h2, num2 n1 n2,
            num2 o1 o2, num2 o3 o4 with
      | some y, some mo, some da, some h, some mi, some oh, some om =>
          if validYMDHM mo da h mi ∧ oh ≤ 23 ∧ om ≤ 59 ∧ (sg = '+' ∨ sg = '-') then
            let off : Int := (if sg = '+' then 1 else -1) * (oh * 60 + om : Nat)
            some (mkTimestamp y mo da h mi off, off)
          else none
      | _, _, _, _, _, _, _ => none
  | [y1, y2, y3, y4, '-', m1, m2, '-', d1, d2, 'T', h1, h2, ':', n1, n2, ':', s1, s2, 'Z'] =>
      match num4 y1 y2 y3 y4, num2 m1 m2, num2 d1 d2, num2 h1 h2, num2 n1 n2, num2 s1 s2 with
      | some y, some mo, some da, some h, some mi, some se =>
          if validYMDHM mo da h mi ∧ se ≤ 59 then some (mkTimestamp y mo da h mi 0, 0) else none
      | _, _, _, _, _, _ => none
  | [y1, y2, y3, y4, '-', m1, m2, '-', d1, d2, 'T', h1, h2, ':', n1, n2, ':', s1, s2,
     sg, o1, o2, ':', o3, o4] =>
      match num4 y1 y2 y3 y4, num2 m1 m2, num2 d1 d2, num2 h1 h2, num2 n1 n2, num2 s1 s2,
            num2 o1 o2, num2 o3 o4 with
      | some y, some mo, some da, some h, some mi, some se, some oh, some om =>
          if validYMDHM mo da h mi ∧ se ≤ 59 ∧ oh ≤ 23 ∧ om ≤ 59 ∧ (sg = '+' ∨ sg = '-') then
            let off : Int := (if sg = '+' then 1 else -1) * (oh * 60 + om : Nat)
            some (mkTimestamp y mo da h mi off, off)
          else none
      | _, _, _, _, _, _, _, _ => none
  | _ => none

/-- Timestamp of an order-date string under the modelled parser. -/
def parseISO (s : String) : Option Int := (parseISOPair s).map Prod.fst

/-- English month name of a 1-based month number, modelling
`new Date(y, m - 1).toLocaleString('default', { month: 'long' })` in an
English default locale. -/
def monthNameOf (m : Nat) : String :=
  match m with
  | 1 => "January" | 2 => "February" | 3 => "March" | 4 => "April"
  | 5 => "May" | 6 => "June" | 7 => "July" | 8 => "August"
  | 9 => "September" | 10 => "October" | 11 => "November" | 12 => "December"
  | _ => ""

/-! ## Insertion-ordered maps and the stable sort

JavaScript `Map` iterates in key-insertion order and ES2019+
`Array.prototype.sort` is stable, so for a total comparator the sorted
output is uniquely determined.  Maps are embedded as insertion-ordered
association lists; sorting as a stable insertion sort. -/

/-- Update an insertion-ordered association list at a key: an existing
entry is replaced in place, a missing key is appended at the end.  This is
the `if (!m.has(k)) m.set(k, init); f(m.get(k))` pattern of the source. -/
def updateAssoc {β : Type} (m : List (String × β)) (k : String) (dflt : β) (f : β → β) :
    List (String × β) :=
  match m with
  | [] => [(k, f dflt)]
  | (k', v) :: rest => if k' = k then (k', f v) :: rest else (k', v) :: updateAssoc rest k dflt f

/-- Lookup in an association list. -/
def lookupA {β : Type} : List (String × β) → String → Option β
  | [], _ => none
  | (k', v) :: rest, k => if k' = k then some v else lookupA rest k

/-- Keys of an association list, in insertion order. -/
def keysOf {β : Type} (m : List (String × β)) : List String := m.map Prod.fst

/-- Add an element to an insertion-ordered set (`Set.prototype.add`). -/
def addSet (s : List String) (x : String) : List String := if x ∈ s then s else s ++ [x]

/-- Fold a row list into an insertion-ordered map: rows with `key r = none`
are skipped, every other row updates its group via `upd`.  All grouping
loops of the engine are instances of this shape. -/
def groupFold {α β : Type} (key : α → Option String) (upd : α → β → β) (init : β)
    (rows : List α) : List (String × β) :=
  rows.foldl (fun m r => match key r with | none => m | some k => updateAssoc m k init (upd r)) []

/-- Insert an element into a list so that it lands before the first element
it is strictly below, and after every element it ties with. -/
def insertSorted {α : Type} (le : α → α → Bool) (x : α) : List α → List α
  | [] => [x]
  | y :: ys => if le x y then x :: y :: ys else y :: insertSorted le x ys

/-- Stable insertion sort.  For a total transitive comparator this computes
the same list as the stable `Array.prototype.sort` of the source. -/
def stableSort {α : Type} (le : α → α → Bool) : List α → List α
  | [] => []
  | x :: xs => insertSorted le x (stableSort le xs)

/-! ## Record shapes and the normalizer (`normalizeOrderData`) -/

/-- Loose input row accepted by the route: every field optional, in either
the database-style naming or the CSV-header naming.  The CSV headers
containing spaces (`'Item Quantity'`, `'Variation Number'`, `'Order Date'`,
`'Variation Name'`, `'Delivery Country'`) are written with a `csv` prefix. -/
structure OrderData where
  id : Option Int := none
  order_id : Option String := none
  item_quantity : Option Int := none
  variation_number : Option String := none
  order_date : Option String := none
  variation_name : Option String := none
  «attribute» : Option String := none
  marketplace : Option String := none
  delivery_country : Option String := none
  created_at : Option String := none
  OrderID : Option String := none
  csvItemQuantity : Option String := none
  csvVariationNumber : Option String := none
  csvOrderDate : Option String := none
  csvVariationName : Option String := none
  csvAttribute : Option String := none
  csvMarketplace : Option String := none
  csvDeliveryCountry : Option String := none
deriving DecidableEq

/-- Canonical record produced by the normalizer.  `item_quantity` is an
integer (a JavaScript number in the source; the data model of spec §3 calls
for a non-negative integer, but the code does not enforce the sign). -/
structure NormalizedOrderData where
  id : Int := 0
  order_id : String := ""
  item_quantity : Int := 0
  variation_number : String := ""
  order_date : String := ""
  variation_name : String := ""
  «attribute» : String := ""
  marketplace : String := ""
  delivery_country : String := ""
  created_at : String := ""
deriving DecidableEq

/-- JavaScript truthiness of an optional number (`undefined`, `0` falsy). -/
def truthyInt : Option Int → Bool
  | some n => n ≠ 0
  | none => false

/-- JavaScript truthiness of an optional string (`undefined`, `''` falsy). -/
def truthyStr : Option String → Bool
  | some s => s ≠ ""
  | none => false

/-- The `a || b || ''` chain on two optional strings. -/
def orStr2 (a b : Option String) : String :=
  if truthyStr a then a.getD "" else if truthyStr b then b.getD "" else ""

/-- The `a || ''` fallback on one optional string. -/
def orStr1 (a : Option String) : String := if truthyStr a then a.getD "" else ""

/-- One row of `normalizeOrderData`: field-by-field image of the object
literal at route.ts lines 40-51, including the truthiness-based preference
for the database-style field and the
`item_quantity || parseInt(csv || '0') || 0` quantity chain. -/
def normalizeRow (order : OrderData) : NormalizedOrderData where
  id := if truthyInt order.id then order.id.getD 0 else 0
  order_id := orStr2 order.order_id order.OrderID
  item_quantity :=
    if truthyInt order.item_quantity then order.item_quantity.getD 0
    else
      let parsed := parseIntJS (orStr1 order.csvItemQuantity |> fun s => if s = "" then "0" else s)
      if truthyInt parsed then parsed.getD 0 else 0
  variation_number := orStr2 order.variation_number order.csvVariationNumber
  order_date := orStr2 order.order_date order.csvOrderDate
  variation_name := orStr2 order.variation_name order.csvVariationName
  «attribute» := orStr2 order.attribute order.csvAttribute
  marketplace := orStr2 order.marketplace order.csvMarketplace
  delivery_country := orStr2 order.delivery_country order.csvDeliveryCountry
  created_at := orStr1 order.created_at

/-- Embedding of `normalizeOrderData` (route.ts lines 39-52). -/
def normalizeOrderData (orders : List OrderData) : List NormalizedOrderData :=
  orders.map normalizeRow

/-! ## Engine: single-dimension aggregations -/

/-- Per-group accumulator `{count, quantity}` / `{count, items}` used by the
marketplace and country aggregations. -/
structure CountItems where
  count : Nat := 0
  items : Int := 0
deriving DecidableEq

/-- Per-record update of a `{count, items}` group:
`current.count + 1`, `current.items + order.item_quantity`. -/
def countItemsUpd (r : NormalizedOrderData) (c : CountItems) : CountItems :=
  { count := c.count + 1, items := c.items + r.item_quantity }

/-- Per-record update of a summed-quantity group. -/
def addQtyUpd (r : NormalizedOrderData) (q : Int) : Int := q + r.item_quantity

/-- Comparator of the source's `(a, b) => b[1].items - a[1].items` descending
sort on `(key, {count, items})` entries. -/
def descByItems (a b : String × CountItems) : Bool := b.2.items ≤ a.2.items

/-- Comparator of the descending sort on `(key, quantity)` entries. -/
def descByVal (a b : String × Int) : Bool := b.2 ≤ a.2

/-- Ascending sort by key string, the source's
`(a, b) => a[0].localeCompare(b[0])`. -/
def ascByKey {β : Type} (a b : String × β) : Bool := jsStrLe a.1 b.1

/-- Marketplace grouping shared by `calculateMarketplaceBreakdown`
(route.ts lines 954-966) and the marketplace block of
`generateComprehensiveAnalytics` (lines 326-336): records with a truthy
(non-empty) `marketplace` are grouped under the trimmed value. -/
def marketplaceData (orders : List NormalizedOrderData) : List (String × CountItems) :=
  groupFold (fun r => if r.marketplace ≠ "" then some (jsTrim r.marketplace) else none)
    countItemsUpd ⟨0, 0⟩ orders

/-- Sorted entry list of `calculateMarketplaceBreakdown`. -/
def marketplaceEntriesSorted (orders : List NormalizedOrderData) : List (String × CountItems) :=
  stableSort descByItems (marketplaceData orders)

/-- Embedding of `calculateMarketplaceBreakdown` (route.ts lines 954-972). -/
def calculateMarketplaceBreakdown (orders : List NormalizedOrderData) : String :=
  String.intercalate "\n" ((marketplaceEntriesSorted orders).map
    (fun p => p.1 ++ ": " ++ natToDec p.2.count ++ " orders (" ++ intToDec p.2.items ++ " items)"))

/-- Delivery-country grouping of `calculateCountryBreakdown` (route.ts lines
974-986) and the country block of `generateComprehensiveAnalytics`. -/
def countryData (orders : List NormalizedOrderData) : List (String × CountItems) :=
  groupFold (fun r => if r.delivery_country ≠ "" then some (jsTrim r.delivery_country) else none)
    countItemsUpd ⟨0, 0⟩ orders

/-- Sorted entry list of `calculateCountryBreakdown`. -/
def countryEntriesSorted (orders : List NormalizedOrderData) : List (String × CountItems) :=
  stableSort descByItems (countryData orders)

/-- Embedding of `calculateCountryBreakdown` (route.ts lines 974-992). -/
def calculateCountryBreakdown (orders : List NormalizedOrderData) : String :=
  String.intercalate "\n" ((countryEntriesSorted orders).map
    (fun p => p.1 ++ ": " ++ natToDec p.2.count ++ " orders (" ++ intToDec p.2.items ++ " items)"))

/-- Product grouping of `calculateProductBreakdown` (route.ts lines 994-1002)
and the product block of `generateComprehensiveAnalytics`: summed quantity
keyed by trimmed `variation_name`. -/
def productData (orders : List NormalizedOrderData) : List (String × Int) :=
  groupFold (fun r => if r.variation_name ≠ "" then some (jsTrim r.variation_name) else none)
    addQtyUpd 0 orders

/-- Top-20 slice of the descending-sorted product groups, as returned by
`calculateProductBreakdown` (route.ts lines 1004-1008). -/
def topProductEntries (orders : List NormalizedOrderData) : List (String × Int) :=
  (stableSort descByVal (productData orders)).take 20

/-- Embedding of `calculateProductBreakdown` (route.ts lines 994-1009). -/
def calculateProductBreakdown (orders : List NormalizedOrderData) : String :=
  String.intercalate "\n" ((topProductEntries orders).map
    (fun p => p.1 ++ ": " ++ intToDec p.2 ++ " items"))

/-- Attribute grouping shared by `calculateAttributeBreakdown` (route.ts
lines 1011-1019) and the attribute block of `generateComprehensiveAnalytics`
(lines 313-319): summed quantity keyed by the trimmed attribute. -/
def attributeData (orders : List NormalizedOrderData) : List (String × Int) :=
  groupFold (fun r => if r.attribute ≠ "" then some (jsTrim r.attribute) else none)
    addQtyUpd 0 orders

/-- Top-20 slice of the descending-sorted attribute groups, used both by
`calculateAttributeBreakdown` and by the `topAttributes` list of
`generateComprehensiveAnalytics` (lines 321-323). -/
def topAttributeEntries (orders : List NormalizedOrderData) : List (String × Int) :=
  (stableSort descByVal (attributeData orders)).take 20

/-- Embedding of `calculateAttributeBreakdown` (route.ts lines 1011-1026). -/
def calculateAttributeBreakdown (orders : List NormalizedOrderData) : String :=
  String.intercalate "\n" ((topAttributeEntries orders).map
    (fun p => p.1 ++ ": " ++ intToDec p.2 ++ " items"))

/-! ## Engine: percentage shares of `generateComprehensiveAnalytics`

The analytics string renders, for each listed group, the expression
`((groupQuantity / dimensionTotal) * 100).toFixed(1)`.  The exact value of
that expression is a rational with one decimal place; it is embedded here in
integer tenths of a percent (`833` stands for the rendered `83.3`).  When the
dimension total is zero the JavaScript division produces `NaN` (or
`Infinity`), rendered as a non-numeric string; that case is embedded as
`none`.  `toFixed(1)` rounds to nearest with ties away from zero; for the
non-negative values at issue this is round-half-up, `⌊x·10 + 1/2⌋` tenths. -/

/-- Share of `q` in total `total`, in tenths of a percent; `none` models the
non-finite result of dividing by a zero total. -/
def pctTenths (q total : Int) : Option Int :=
  if total = 0 then none else some ((2 * (q * 1000) + total).fdiv (2 * total))

/-- Dimension total of the attribute breakdown (route.ts line 559): the sum
over the full attribute map, not only the rendered top 20. -/
def totalAttributeQuantity (orders : List NormalizedOrderData) : Int :=
  ((attributeData orders).map (fun p => p.2)).sum

/-- Dimension total of the marketplace breakdown (route.ts line 560). -/
def totalMarketplaceQuantity (orders : List NormalizedOrderData) : Int :=
  ((marketplaceData orders).map (fun p => p.2.items)).sum

/-- Dimension total of the country breakdown (route.ts line 561). -/
def totalCountryQuantity (orders : List NormalizedOrderData) : Int :=
  ((countryData orders).map (fun p => p.2.items)).sum

/-- The `(value, quantity, percent)` triples rendered by the
`TOP ATTRIBUTES BY QUANTITY SOLD` section (route.ts line 621). -/
def attrShares (orders : List NormalizedOrderData) : List (String × Int × Option Int) :=
  (topAttributeEntries orders).map
    (fun p => (p.1, p.2, pctTenths p.2 (totalAttributeQuantity orders)))

/-- The top-10 marketplace slice of `generateComprehensiveAnalytics`
(lines 338-340). -/
def topMarketplaceEntries (orders : List NormalizedOrderData) : List (String × CountItems) :=
  (stableSort descByItems (marketplaceData orders)).take 10

/-- The `(value, quantity, percent)` triples rendered by the
`TOP MARKETPLACES BY VOLUME` section (route.ts line 624). -/
def mpShares (orders : List NormalizedOrderData) : List (String × Int × Option Int) :=
  (topMarketplaceEntries orders).map
    (fun p => (p.1, p.2.items, pctTenths p.2.items (totalMarketplaceQuantity orders)))

/-- The top-10 country slice of `generateComprehensiveAnalytics`
(lines 355-357). -/
def topCountryEntries (orders : List NormalizedOrderData) : List (String × CountItems) :=
  (stableSort descByItems (countryData orders)).take 10

/-- The `(value, quantity, percent)` triples rendered by the
`TOP COUNTRIES BY VOLUME` section (route.ts line 627). -/
def countryShares (orders : List NormalizedOrderData) : List (String × Int × Option Int) :=
  (topCountryEntries orders).map
    (fun p => (p.1, p.2.items, pctTenths p.2.items (totalCountryQuantity orders)))

/-! ## Engine: temporal aggregation

All temporal functions are parameterised over the host date parser
`jsDate : String → Option Int` (the behaviour of `new Date` followed by the
`isNaN(date.getTime())` validity test; `none` is Invalid Date) and the host
UTC offset `tz` in minutes, which feeds the local-time `Date` accessors. -/

/-- Guard-plus-parse shared by every temporal loop of the route:
`if (order.order_date && order.order_date.trim() !== '')` followed by the
`new Date` calls (all three branches of the format dispatch construct
`new Date(order.order_date)`) and the `isNaN(date.getTime())` check. -/
def resolveDate (jsDate : String → Option Int) (r : NormalizedOrderData) : Option Int :=
  if r.order_date ≠ "" ∧ jsTrim r.order_date ≠ "" then jsDate r.order_date else none

/-- Month bucket key of a record, when its date resolves. -/
def monthKeyOfRec (jsDate : String → Option Int) (tz : Int) (r : NormalizedOrderData) :
    Option String :=
  (resolveDate jsDate r).map (monthKeyStr tz)

/-- Local `(year, month)` pair behind a record's month bucket key. -/
def monthPairOfRec (jsDate : String → Option Int) (tz : Int) (r : NormalizedOrderData) :
    Option (Int × Nat) :=
  (resolveDate jsDate r).map (fun t => (getFullYear tz t, getMonth1 tz t))

/-- Local day bucket key of a record (the `dailyKey` of
`generateComprehensiveAnalytics`, line 460), when its date resolves. -/
def dailyKeyOfRec (jsDate : String → Option Int) (tz : Int) (r : NormalizedOrderData) :
    Option String :=
  (resolveDate jsDate r).map (dailyKeyStr tz)

/-- UTC day string a record is compared against in `calculateSpecificDate`
(route.ts line 910: `date.toISOString().split('T')[0]`). -/
def isoDayOfRec (jsDate : String → Option Int) (r : NormalizedOrderData) : Option String :=
  (resolveDate jsDate r).map isoDateString

/-- Bucket accumulator of the `monthlyAnalysis` map of
`generateComprehensiveAnalytics` (route.ts lines 374, 409-427). -/
structure MonthAgg where
  uniqueOrders : List String := []
  totalQuantity : Int := 0
  totalOrderCount : Nat := 0
deriving DecidableEq

/-- Per-record bucket update of `monthlyAnalysis` (route.ts lines 421-427):
every record increments the row count and adds its quantity; the `order_id`
joins the unique set only when truthy (non-empty, untrimmed). -/
def monthAggUpd (r : NormalizedOrderData) (c : MonthAgg) : MonthAgg :=
  { totalOrderCount := c.totalOrderCount + 1
    uniqueOrders := if r.order_id ≠ "" then addSet c.uniqueOrders r.order_id else c.uniqueOrders
    totalQuantity := c.totalQuantity + r.item_quantity }

/-- Embedding of the `monthlyAnalysis` map of `generateComprehensiveAnalytics`
(route.ts lines 409-427), keyed by local month of resolvable records. -/
def monthlyAnalysis (jsDate : String → Option Int) (tz : Int)
    (orders : List NormalizedOrderData) : List (String × MonthAgg) :=
  groupFold (monthKeyOfRec jsDate tz) monthAggUpd {} orders

/-- Bucket accumulator of `calculateMonthlyBreakdown` (route.ts line 844). -/
structure MonthlyCell where
  uniqueIds : List String := []
  items : Int := 0
deriving DecidableEq

/-- Per-record bucket update of `calculateMonthlyBreakdown` (route.ts lines
868-876): the unique set receives the trimmed `order_id` when
`order.order_id && order.order_id.trim() !== ''`. -/
def monthlyCellUpd (r : NormalizedOrderData) (c : MonthlyCell) : MonthlyCell :=
  { uniqueIds :=
      if r.order_id ≠ "" ∧ jsTrim r.order_id ≠ "" then addSet c.uniqueIds (jsTrim r.order_id)
      else c.uniqueIds
    items := c.items + r.item_quantity }

/-- Embedding of the `monthlyData` map of `calculateMonthlyBreakdown`
(route.ts lines 846-879): resolvable records only, keyed by local month. -/
def monthlyData (jsDate : String → Option Int) (tz : Int)
    (orders : List NormalizedOrderData) : List (String × MonthlyCell) :=
  groupFold (monthKeyOfRec jsDate tz) monthlyCellUpd {} orders

/-- Chronologically-intended entry list of `calculateMonthlyBreakdown`:
the bucket map sorted ascending by `localeCompare` on the key strings
(route.ts line 882). -/
def monthlyEntriesSorted (jsDate : String → Option Int) (tz : Int)
    (orders : List NormalizedOrderData) : List (String × MonthlyCell) :=
  stableSort ascByKey (monthlyData jsDate tz orders)

/-- Split a character list at a separator. -/
def splitOnChar (sep : Char) : List Char → List (List Char)
  | [] => [[]]
  | c :: cs =>
      if c = sep then [] :: splitOnChar sep cs
      else
        match splitOnChar sep cs with
        | [] => [[c]]
        | g :: gs => (c :: g) :: gs

/-- Model of `monthKey.split('-')`. -/
def jsSplitDash (s : String) : List String := (splitOnChar '-' s.data).map String.mk

/-- Line rendering of `calculateMonthlyBreakdown` (route.ts lines 883-887):
month name from the parsed month number, unpadded year, unique-id count and
summed items. -/
def formatMonthLine (k : String) (uniq : Nat) (items : Int) : String :=
  let parts := jsSplitDash k
  let year := parts.headD ""
  let mo := ((parseIntJS (parts.getD 1 "")).getD 0).toNat
  monthNameOf mo ++ " " ++ year ++ ": " ++ natToDec uniq ++ " orders (" ++ intToDec items ++ " items)"

/-- Embedding of `calculateMonthlyBreakdown` (route.ts lines 843-889). -/
def calculateMonthlyBreakdown (jsDate : String → Option Int) (tz : Int)
    (orders : List NormalizedOrderData) : String :=
  String.intercalate "\n" ((monthlyEntriesSorted jsDate tz orders).map
    (fun p => formatMonthLine p.1 p.2.uniqueIds.length p.2.items))

/-! ## Engine: specific-date lookup (`calculateSpecificDate`) -/

/-- Row record pushed into `results` by `calculateSpecificDate`
(route.ts lines 915-919). -/
structure SpecificRowInfo where
  orderId : String
  country : String
  marketplace : String
deriving DecidableEq

/-- The `results` entry built for a matching record, with the `|| 'N/A'`
fallbacks of the source. -/
def specificRowOf (r : NormalizedOrderData) : SpecificRowInfo :=
  { orderId := if r.order_id ≠ "" then r.order_id else "N/A"
    country := r.delivery_country
    marketplace := if r.marketplace ≠ "" then r.marketplace else "N/A" }

/-- Membership test of the `calculateSpecificDate` loop: the record's date
resolves, its UTC day string equals the target, and — by the
`if (order.delivery_country)` guard — its delivery country is truthy. -/
def specificHitB (jsDate : String → Option Int) (target : String)
    (r : NormalizedOrderData) : Bool :=
  match resolveDate jsDate r with
  | some t => isoDateString t = target ∧ r.delivery_country ≠ ""
  | none => false

/-- Single pass of `calculateSpecificDate` building `results` and the
`countries` set (route.ts lines 892-924). -/
def specificScan (jsDate : String → Option Int) (orders : List NormalizedOrderData)
    (target : String) : List SpecificRowInfo × List String :=
  orders.foldl
    (fun acc r =>
      if specificHitB jsDate target r then
        (acc.1 ++ [specificRowOf r], addSet acc.2 r.delivery_country)
      else acc)
    ([], [])

/-- The `results` list of `calculateSpecificDate`. -/
def specificDateResults (jsDate : String → Option Int) (orders : List NormalizedOrderData)
    (target : String) : List SpecificRowInfo :=
  (specificScan jsDate orders target).1

/-- The `countries` set of `calculateSpecificDate`, in insertion order. -/
def specificDateCountries (jsDate : String → Option Int) (orders : List NormalizedOrderData)
    (target : String) : List String :=
  (specificScan jsDate orders target).2

/-- Embedding of `calculateSpecificDate` (route.ts lines 891-932). -/
def calculateSpecificDate (jsDate : String → Option Int) (orders : List NormalizedOrderData)
    (target : String) : String :=
  let results := specificDateResults jsDate orders target
  let countries := specificDateCountries jsDate orders target
  if results.length = 0 then "No orders found for " ++ target
  else
    "Orders on " ++ target ++ ":\n- Countries: " ++
      String.intercalate ", " (stableSort jsStrLe countries) ++
      "\n- Total orders: " ++ natToDec results.length ++
      "\n- Order details: " ++
      String.intercalate ", "
        ((results.take 5).map (fun q => q.orderId ++ " (" ++ q.country ++ ")")) ++
      (if 5 < results.length then "..." else "")

/-! ## Engine: descriptive statistics (`calculateStandardDeviation`)

The source returns `{mean: Math.round(mean*100)/100,
stdDev: Math.round(Math.sqrt(variance)*100)/100}`.  The mean and the
variance are exact rationals and are embedded as such; the square root and
the final two-decimal rounding are monotone post-processing steps on the
variance and are not part of the rational model. -/

/-- The `mean` accumulator of `calculateStandardDeviation` (route.ts
line 949): sum divided by length (division by zero yields `0` in `ℚ`,
modelling the `NaN` only in shape; the claims constrain non-empty input). -/
def calcMean (values : List ℚ) : ℚ := values.sum / values.length

/-- The `variance` accumulator of `calculateStandardDeviation` (route.ts
line 950): mean of squared deviations from the mean, divided by `N`. -/
def calcVariance (values : List ℚ) : ℚ :=
  (values.map (fun v => (v - calcMean values) ^ 2)).sum / values.length

/-- Population variance in its textbook algebraic form, written from the
spec's words (mean of squares minus square of mean); compared against the
code's accumulator in the claim theorem. -/
def populationVarianceSpec (values : List ℚ) : ℚ :=
  (values.map (fun v => v ^ 2)).sum / values.length - (values.sum / values.length) ^ 2

/-- Sample variance (divide by `N - 1`), written from the spec's words as
the rejected alternative convention. -/
def sampleVarianceSpec (values : List ℚ) : ℚ :=
  (values.map (fun v => (v - calcMean values) ^ 2)).sum / ((values.length : ℚ) - 1)

/-! ## Fold step and concrete inputs used by the claim theorems -/

/-- One step of `groupFold`, named so that accumulator-generalised lemmas
can speak about partially-applied folds. -/
def groupStep {α β : Type} (key : α → Option String) (upd : α → β → β) (init : β)
    (m : List (String × β)) (r : α) : List (String × β) :=
  match key r with
  | none => m
  | some k => updateAssoc m k init (upd r)

/-- Scenario-1 records of the spec with no delivery country: two line items
on 2024-01-05. -/
def demoC1 : List NormalizedOrderData :=
  [{ order_id := "A", item_quantity := 2, order_date := "2024-01-05", marketplace := "Amazon" },
   { order_id := "A", item_quantity := 3, order_date := "2024-01-05", marketplace := "Amazon" }]

/-- One record with an attribute group whose summed quantity is zero. -/
def demoC2zero : List NormalizedOrderData :=
  [{ «attribute» := "Red", item_quantity := 0 }]

/-- One record with positive quantity for the percentage witness. -/
def demoC2pos : List NormalizedOrderData :=
  [{ «attribute» := "Red", marketplace := "Amazon", delivery_country := "DE", item_quantity := 1 }]

/-- One record whose categorical fields are whitespace-only in all four
dimensions. -/
def demoC3 : List NormalizedOrderData :=
  [{ marketplace := " ", «attribute» := " ", delivery_country := " ",
     variation_name := " ", item_quantity := 2 }]

/-- Twenty-one distinct products, one unit each: one more group than the
top-20 slice returns. -/
def demoC4 : List NormalizedOrderData :=
  (List.range 21).map (fun i => { variation_name := "P" ++ natToDec i, item_quantity := 1 })

/-- Two marketplaces, two products, for the conservation witness. -/
def demoC4w : List NormalizedOrderData :=
  [{ marketplace := "Amazon", delivery_country := "DE", variation_name := "Widget",
     item_quantity := 2 },
   { marketplace := "eBay", variation_name := "Widget", item_quantity := 3 }]

/-- A record dated in three-digit year 999. -/
def demoC5r999 : NormalizedOrderData :=
  { order_id := "A", item_quantity := 1, order_date := "0999-02-01" }

/-- A record dated in four-digit year 1000, chronologically after
`demoC5r999`. -/
def demoC5r1000 : NormalizedOrderData :=
  { order_id := "B", item_quantity := 1, order_date := "1000-01-01" }

/-- Record list mixing a three-digit and a four-digit bucket year. -/
def demoC5 : List NormalizedOrderData := [demoC5r999, demoC5r1000]

/-- Input row with no fields at all. -/
def demoC6row : OrderData := {}

/-- One resolvable record whose `order_id` is empty. -/
def demoC7 : List NormalizedOrderData :=
  [{ order_id := "", item_quantity := 5, order_date := "2024-01-05" }]

/-- Scenario-1 January records: two rows sharing one order id. -/
def demoC7w : List NormalizedOrderData :=
  [{ order_id := "A", item_quantity := 2, order_date := "2024-01-05" },
   { order_id := "A", item_quantity := 3, order_date := "2024-01-05" }]

/-- Item-quantity sample with two distinct values. -/
def demoC8 : List ℚ := [0, 1, 2]

/-- Record whose order date carries the non-zero UTC offset `+01:00` and
whose instant lies in the last minute of a UTC month. -/
def demoC9pos : NormalizedOrderData := { order_date := "2024-02-01T00:59+01:00" }

/-- Record whose order date carries the non-zero UTC offset `+01:00` and
whose instant lies in the first minute of a UTC month. -/
def demoC9neg : NormalizedOrderData := { order_date := "2024-02-01T01:00+01:00" }

/-- Input row with a falsy database-style quantity and marketplace next to
truthy CSV-style values. -/
def demoC10row : OrderData :=
  { item_quantity := some 0, csvItemQuantity := some "7",
    marketplace := some "", csvMarketplace := some "Amazon" }

/-! ## Lemmas: association-list machinery -/

@[simp] theorem keysOf_nil {β : Type} : keysOf ([] : List (String × β)) = [] := rfl

@[simp] theorem keysOf_cons {β : Type} (p : String × β) (m : List (String × β)) :
    keysOf (p :: m) = p.1 :: keysOf m := rfl

@[simp] theorem lookupA_nil {β : Type} (k : String) : lookupA ([] : List (String × β)) k = none :=
  rfl

theorem lookupA_cons {β : Type} (k' : String) (v : β) (m : List (String × β)) (k : String) :
    lookupA ((k', v) :: m) k = if k' = k then some v else lookupA m k := rfl

theorem updateAssoc_nil {β : Type} (k : String) (dflt : β) (f : β → β) :
    updateAssoc [] k dflt f = [(k, f dflt)] := rfl

theorem updateAssoc_cons {β : Type} (k' : String) (v : β) (m : List (String × β)) (k : String)
    (dflt : β) (f : β → β) :
    updateAssoc ((k', v) :: m) k dflt f =
      if k' = k then (k', f v) :: m else (k', v) :: updateAssoc m k dflt f := rfl

theorem lookupA_eq_none_iff {β : Type} (m : List (String × β)) (k : String) :
    lookupA m k = none ↔ k ∉ keysOf m := by
  induction m with
  | nil => simp
  | cons p rest ih =>
      obtain ⟨k', v⟩ := p
      by_cases h : k' = k
      · subst h; simp [lookupA_cons]
      · simp [lookupA_cons, h, ih, Ne.symm h]

theorem lookupA_updateAssoc_self {β : Type} (m : List (String × β)) (k : String) (dflt : β)
    (f : β → β) :
    lookupA (updateAssoc m k dflt f) k = some (f ((lookupA m k).getD dflt)) := by
  induction m with
  | nil => simp [updateAssoc_nil, lookupA_cons]
  | cons p rest ih =>
      obtain ⟨k', v⟩ := p
      by_cases h : k' = k <;> simp [updateAssoc_cons, lookupA_cons, h, ih]

theorem lookupA_updateAssoc_ne {β : Type} (m : List (String × β)) {k k' : String} (dflt : β)
    (f : β → β) (h : k' ≠ k) :
    lookupA (updateAssoc m k dflt f) k' = lookupA m k' := by
  induction m with
  | nil => simp [updateAssoc_nil, lookupA_cons, Ne.symm h]
  | cons p rest ih =>
      obtain ⟨k'', v⟩ := p
      by_cases h1 : k'' = k
      · subst h1
        simp [updateAssoc_cons, lookupA_cons, Ne.symm h]
      · simp [updateAssoc_cons, lookupA_cons, h1, ih]

theorem keysOf_updateAssoc {β : Type} (m : List (String × β)) (k : String) (dflt : β)
    (f : β → β) :
    keysOf (updateAssoc m k dflt f) =
      if k ∈ keysOf m then keysOf m else keysOf m ++ [k] := by
  induction m with
  | nil => simp [updateAssoc_nil]
  | cons p rest ih =>
      obtain ⟨k', v⟩ := p
      by_cases h : k' = k
      · subst h; simp [updateAssoc_cons]
      · rw [updateAssoc_cons, if_neg h]
        by_cases hm : k ∈ keysOf rest
        · simp [ih, hm, Ne.symm h]
        · simp [ih, hm, Ne.symm h]

theorem mem_keysOf_updateAssoc {β : Type} (m : List (String × β)) (k k' : String) (dflt : β)
    (f : β → β) :
    k' ∈ keysOf (updateAssoc m k dflt f) ↔ k' ∈ keysOf m ∨ k' = k := by
  rw [keysOf_updateAssoc]
  by_cases hm : k ∈ keysOf m
  · rw [if_pos hm]
    constructor
    · exact Or.inl
    · rintro (h | rfl) <;> [exact h; exact hm]
  · rw [if_neg hm]; simp

theorem nodup_keysOf_updateAssoc {β : Type} {m : List (String × β)} (k : String) (dflt : β)
    (f : β → β) (h : (keysOf m).Nodup) :
    (keysOf (updateAssoc m k dflt f)).Nodup := by
  rw [keysOf_updateAssoc]
  by_cases hm : k ∈ keysOf m
  · simpa [hm] using h
  · simpa [hm, List.nodup_append] using h

theorem mem_assoc_iff_lookupA {β : Type} {m : List (String × β)} (hnd : (keysOf m).Nodup)
    (k : String) (v : β) :
    (k, v) ∈ m ↔ lookupA m k = some v := by
  induction m with
  | nil => simp
  | cons p rest ih =>
      obtain ⟨k', v'⟩ := p
      simp only [keysOf_cons, List.nodup_cons] at hnd
      by_cases h : k' = k
      · subst h
        rw [lookupA_cons, if_pos rfl]
        constructor
        · intro hmem
          rcases List.mem_cons.mp hmem with heq | hmem'
          · simp only [Prod.mk.injEq] at heq
            rw [heq.2]
          · exact absurd (List.mem_map_of_mem Prod.fst hmem') hnd.1
        · intro hv
          rw [Option.some.inj hv]
          exact List.mem_cons_self _ _
      · rw [lookupA_cons, if_neg h, ← ih hnd.2]
        simp only [List.mem_cons, Prod.mk.injEq]
        constructor
        · rintro (⟨hk, -⟩ | hm)
          · exact absurd hk.symm h
          · exact hm
        · exact Or.inr

/-! ## Lemmas: the grouping fold -/

theorem groupFold_eq_foldl {α β : Type} (key : α → Option String) (upd : α → β → β) (init : β)
    (rows : List α) :
    groupFold key upd init rows = rows.foldl (groupStep key upd init) [] := rfl

theorem groupStep_none {α β : Type} {key : α → Option String} (upd : α → β → β) (init : β)
    (m : List (String × β)) {r : α} (hk : key r = none) :
    groupStep key upd init m r = m := by
  unfold groupStep; rw [hk]

theorem groupStep_some {α β : Type} {key : α → Option String} (upd : α → β → β) (init : β)
    (m : List (String × β)) {r : α} {k : String} (hk : key r = some k) :
    groupStep key upd init m r = updateAssoc m k init (upd r) := by
  unfold groupStep; rw [hk]

theorem mem_keysOf_foldl_groupStep {α β : Type} (key : α → Option String) (upd : α → β → β)
    (init : β) (rows : List α) (k : String) :
    ∀ m, k ∈ keysOf (rows.foldl (groupStep key upd init) m) ↔
      k ∈ keysOf m ∨ ∃ r ∈ rows, key r = some k := by
  induction rows with
  | nil => simp
  | cons r rows ih =>
      intro m
      rw [List.foldl_cons, ih]
      cases hk : key r with
      | none =>
          rw [groupStep_none upd init m hk]
          constructor
          · rintro (h | ⟨r', hr', hkr'⟩)
            · exact Or.inl h
            · exact Or.inr ⟨r', List.mem_cons_of_mem r hr', hkr'⟩
          · rintro (h | ⟨r', hr', hkr'⟩)
            · exact Or.inl h
            · rcases List.mem_cons.mp hr' with rfl | hr''
              · rw [hk] at hkr'; cases hkr'
              · exact Or.inr ⟨r', hr'', hkr'⟩
      | some k' =>
          rw [groupStep_some upd init m hk, mem_keysOf_updateAssoc]
          constructor
          · rintro ((h | rfl) | ⟨r', hr', hkr'⟩)
            · exact Or.inl h
            · exact Or.inr ⟨r, List.mem_cons_self r rows, hk⟩
            · exact Or.inr ⟨r', List.mem_cons_of_mem r hr', hkr'⟩
          · rintro (h | ⟨r', hr', hkr'⟩)
            · exact Or.inl (Or.inl h)
            · rcases List.mem_cons.mp hr' with rfl | hr''
              · rw [hk] at hkr'
                exact Or.inl (Or.inr (Option.some.inj hkr').symm)
              · exact Or.inr ⟨r', hr'', hkr'⟩

theorem mem_keysOf_groupFold {α β : Type} (key : α → Option String) (upd : α → β → β)
    (init : β) (rows : List α) (k : String) :
    k ∈ keysOf (groupFold key upd init rows) ↔ ∃ r ∈ rows, key r = some k := by
  rw [groupFold_eq_foldl, mem_keysOf_foldl_groupStep]
  simp

theorem nodup_keysOf_foldl_groupStep {α β : Type} (key : α → Option String) (upd : α → β → β)
    (init : β) (rows : List α) :
    ∀ m, (keysOf m).Nodup → (keysOf (rows.foldl (groupStep key upd init) m)).Nodup := by
  induction rows with
  | nil => exact fun m h => h
  | cons r rows ih =>
      intro m h
      rw [List.foldl_cons]
      refine ih _ ?_
      cases hk : key r with
      | none => rw [groupStep_none upd init m hk]; exact h
      | some k' => rw [groupStep_some upd init m hk]; exact nodup_keysOf_updateAssoc k' init (upd r) h

theorem nodup_keysOf_groupFold {α β : Type} (key : α → Option String) (upd : α → β → β)
    (init : β) (rows : List α) :
    (keysOf (groupFold key upd init rows)).Nodup := by
  rw [groupFold_eq_foldl]
  exact nodup_keysOf_foldl_groupStep key upd init rows [] (by simp)

theorem lookupA_foldl_groupStep {α β : Type} (key : α → Option String) (upd : α → β → β)
    (init : β) (k : String) (rows : List α) :
    ∀ m, lookupA (rows.foldl (groupStep key upd init) m) k =
      match lookupA m k with
      | some b => some ((rows.filter (fun r => key r = some k)).foldl (fun b r => upd r b) b)
      | none =>
          if (rows.filter (fun r => key r = some k)).isEmpty then none
          else some ((rows.filter (fun r => key r = some k)).foldl (fun b r => upd r b) init) := by
  induction rows with
  | nil =>
      intro m
      cases hm : lookupA m k <;> simp [hm, List.filter_nil]
  | cons r rows ih =>
      intro m
      rw [List.foldl_cons]
      by_cases hk : key r = some k
      · have hfil : (r :: rows).filter (fun r => key r = some k)
            = r :: rows.filter (fun r => key r = some k) := by
          simp [List.filter_cons, hk]
        rw [groupStep_some upd init m hk, ih, lookupA_updateAssoc_self, hfil]
        cases hm : lookupA m k <;> simp [hm, List.isEmpty_cons]
      · have hfil : (r :: rows).filter (fun r' => key r' = some k)
            = rows.filter (fun r' => key r' = some k) := by
          simp [List.filter_cons, hk]
        rw [hfil]
        cases hkr : key r with
        | none => rw [groupStep_none upd init m hkr, ih]
        | some k' =>
            have hne : k ≠ k' := by rintro rfl; exact hk hkr
            rw [groupStep_some upd init m hkr, ih, lookupA_updateAssoc_ne _ _ _ hne]

theorem lookupA_groupFold {α β : Type} (key : α → Option String) (upd : α → β → β)
    (init : β) (rows : List α) (k : String) :
    lookupA (groupFold key upd init rows) k =
      if (rows.filter (fun r => key r = some k)).isEmpty then none
      else some ((rows.filter (fun r => key r = some k)).foldl (fun b r => upd r b) init) := by
  rw [groupFold_eq_foldl, lookupA_foldl_groupStep]
  rfl

/-! ## Lemmas: sums over grouped maps -/

theorem sum_map_updateAssoc {β : Type} (π : β → Int) (m : List (String × β)) (k : String)
    (dflt : β) (f : β → β) (c0 : Int) (hf : ∀ b, π (f b) = π b + c0) (hd : π dflt = 0) :
    ((updateAssoc m k dflt f).map (fun p => π p.2)).sum
      = (m.map (fun p => π p.2)).sum + c0 := by
  induction m with
  | nil => simp [updateAssoc_nil, hf, hd]
  | cons p rest ih =>
      obtain ⟨k', v⟩ := p
      by_cases h : k' = k
      · subst h
        rw [updateAssoc_cons, if_pos rfl]
        simp only [List.map_cons, List.sum_cons, hf]
        omega
      · simp only [updateAssoc_cons, if_neg h, List.map_cons, List.sum_cons, ih]
        omega

theorem sum_map_foldl_groupStep {α β : Type} (key : α → Option String) (upd : α → β → β)
    (init : β) (π : β → Int) (c : α → Int) (hupd : ∀ r b, π (upd r b) = π b + c r)
    (hinit : π init = 0) (rows : List α) :
    ∀ m, ((rows.foldl (groupStep key upd init) m).map (fun p => π p.2)).sum
      = (m.map (fun p => π p.2)).sum
        + ((rows.filter (fun r => (key r).isSome)).map c).sum := by
  induction rows with
  | nil => intro m; simp
  | cons r rows ih =>
      intro m
      rw [List.foldl_cons]
      cases hk : key r with
      | none =>
          rw [groupStep_none upd init m hk, ih]
          simp [List.filter_cons, hk]
      | some k' =>
          rw [groupStep_some upd init m hk, ih,
            sum_map_updateAssoc π m k' init (upd r) (c r) (hupd r) hinit]
          simp [List.filter_cons, hk]
          omega

theorem sum_map_groupFold {α β : Type} (key : α → Option String) (upd : α → β → β)
    (init : β) (π : β → Int) (c : α → Int) (hupd : ∀ r b, π (upd r b) = π b + c r)
    (hinit : π init = 0) (rows : List α) :
    ((groupFold key upd init rows).map (fun p => π p.2)).sum
      = ((rows.filter (fun r => (key r).isSome)).map c).sum := by
  rw [groupFold_eq_foldl, sum_map_foldl_groupStep key upd init π c hupd hinit]
  simp

/-! ## Lemmas: insertion-ordered sets -/

theorem mem_addSet (s : List String) (x y : String) :
    y ∈ addSet s x ↔ y ∈ s ∨ y = x := by
  unfold addSet
  by_cases h : x ∈ s
  · rw [if_pos h]
    constructor
    · exact Or.inl
    · rintro (hy | rfl) <;> [exact hy; exact h]
  · rw [if_neg h]; simp

theorem nodup_addSet (s : List String) (x : String) (h : s.Nodup) : (addSet s x).Nodup := by
  unfold addSet
  by_cases hx : x ∈ s
  · rwa [if_pos hx]
  · rw [if_neg hx, List.nodup_append]
    refine ⟨h, List.nodup_singleton x, ?_⟩
    intro a ha hax
    rw [List.mem_singleton.mp hax] at ha
    exact hx ha

theorem mem_foldl_addSet (l : List String) (x : String) :
    ∀ acc, x ∈ l.foldl addSet acc ↔ x ∈ acc ∨ x ∈ l := by
  induction l with
  | nil => simp
  | cons y l ih =>
      intro acc
      rw [List.foldl_cons, ih, mem_addSet]
      constructor
      · rintro ((h | rfl) | h)
        · exact Or.inl h
        · exact Or.inr (List.mem_cons_self _ _)
        · exact Or.inr (List.mem_cons_of_mem _ h)
      · rintro (h | h)
        · exact Or.inl (Or.inl h)
        · rcases List.mem_cons.mp h with rfl | h'
          · exact Or.inl (Or.inr rfl)
          · exact Or.inr h'

theorem nodup_foldl_addSet (l : List String) :
    ∀ acc, acc.Nodup → (l.foldl addSet acc).Nodup := by
  induction l with
  | nil => exact fun acc h => h
  | cons y l ih => exact fun acc h => ih _ (nodup_addSet acc y h)

theorem length_addSet_le (s : List String) (x : String) :
    (addSet s x).length ≤ s.length + 1 := by
  unfold addSet
  by_cases h : x ∈ s
  · rw [if_pos h]; omega
  · rw [if_neg h]; simp

theorem length_foldl_addSet_le (l : List String) :
    ∀ acc, (l.foldl addSet acc).length ≤ acc.length + l.length := by
  induction l with
  | nil => simp
  | cons y l ih =>
      intro acc
      rw [List.foldl_cons]
      calc (List.foldl addSet (addSet acc y) l).length
          ≤ (addSet acc y).length + l.length := ih _
        _ ≤ acc.length + 1 + l.length := by
            have := length_addSet_le acc y
            omega
        _ = acc.length + (y :: l).length := by simp; omega

theorem length_foldl_addSet_eq_iff (l : List String) :
    ∀ acc, (l.foldl addSet acc).length = acc.length + l.length
      ↔ l.Nodup ∧ ∀ x ∈ l, x ∉ acc := by
  induction l with
  | nil => simp
  | cons y l ih =>
      intro acc
      rw [List.foldl_cons]
      by_cases h : y ∈ acc
      · have hlen : (addSet acc y) = acc := by unfold addSet; rw [if_pos h]
        rw [hlen]
        have hle := length_foldl_addSet_le l acc
        constructor
        · intro heq
          exfalso
          simp only [List.length_cons] at heq
          omega
        · rintro ⟨-, hall⟩
          exact absurd h (hall y (List.mem_cons_self _ _))
      · have hlen : (addSet acc y) = acc ++ [y] := by unfold addSet; rw [if_neg h]
        have hlen2 : acc.length + (y :: l).length = (acc ++ [y]).length + l.length := by
          simp; omega
        rw [hlen, hlen2, ih]
        simp only [List.length_append, List.length_singleton, List.length_cons,
          List.nodup_cons, List.mem_append, List.mem_singleton]
        constructor
        · rintro ⟨hnd, hall⟩
          refine ⟨⟨fun hy => ?_, hnd⟩, fun x hx => ?_⟩
          · exact (hall y hy) (Or.inr rfl)
          · rcases List.mem_cons.mp hx with rfl | hx'
            · exact h
            · intro hxacc
              exact hall x hx' (Or.inl hxacc)
        · rintro ⟨⟨hyl, hnd⟩, hall⟩
          refine ⟨hnd, fun x hx => ?_⟩
          rintro (hxacc | rfl)
          · exact hall x (List.mem_cons_of_mem _ hx) hxacc
          · exact hyl hx

theorem length_foldl_addSet_nil_le (l : List String) :
    (l.foldl addSet []).length ≤ l.length := by
  have := length_foldl_addSet_le l []
  simpa using this

theorem length_foldl_addSet_nil_eq_iff (l : List String) :
    (l.foldl addSet []).length = l.length ↔ l.Nodup := by
  have := length_foldl_addSet_eq_iff l []
  simpa using this

/-! ## Lemmas: the stable sort -/

theorem insertSorted_perm {α : Type} (le : α → α → Bool) (x : α) (l : List α) :
    (insertSorted le x l).Perm (x :: l) := by
  induction l with
  | nil => exact List.Perm.refl _
  | cons y ys ih =>
      unfold insertSorted
      by_cases h : le x y
      · rw [if_pos h]
      · rw [if_neg h]
        exact (List.Perm.cons y ih).trans (List.Perm.swap x y ys)

theorem stableSort_perm {α : Type} (le : α → α → Bool) (l : List α) :
    (stableSort le l).Perm l := by
  induction l with
  | nil => exact List.Perm.refl _
  | cons x xs ih =>
      unfold stableSort
      exact (insertSorted_perm le x (stableSort le xs)).trans (ih.cons x)

theorem mem_stableSort {α : Type} (le : α → α → Bool) (l : List α) (x : α) :
    x ∈ stableSort le l ↔ x ∈ l :=
  (stableSort_perm le l).mem_iff

theorem pairwise_insertSorted {α : Type} (le : α → α → Bool)
    (htot : ∀ a b, le a b = true ∨ le b a = true)
    (htrans : ∀ a b c, le a b = true → le b c = true → le a c = true)
    (x : α) (l : List α) (h : l.Pairwise (fun a b => le a b = true)) :
    (insertSorted le x l).Pairwise (fun a b => le a b = true) := by
  induction l with
  | nil => simp [insertSorted]
  | cons y ys ih =>
      rw [List.pairwise_cons] at h
      unfold insertSorted
      by_cases hxy : le x y
      · rw [if_pos hxy, List.pairwise_cons]
        refine ⟨?_, List.pairwise_cons.mpr h⟩
        intro b hb
        rcases List.mem_cons.mp hb with rfl | hb'
        · exact hxy
        · exact htrans x y b hxy (h.1 b hb')
      · rw [if_neg hxy, List.pairwise_cons]
        have hyx : le y x = true := (htot x y).resolve_left (by simpa using hxy)
        refine ⟨?_, ih h.2⟩
        intro b hb
        rcases List.mem_cons.mp ((insertSorted_perm le x ys).mem_iff.mp hb) with rfl | h2
        · exact hyx
        · exact h.1 b h2

theorem pairwise_stableSort {α : Type} (le : α → α → Bool)
    (htot : ∀ a b, le a b = true ∨ le b a = true)
    (htrans : ∀ a b c, le a b = true → le b c = true → le a c = true)
    (l : List α) :
    (stableSort le l).Pairwise (fun a b => le a b = true) := by
  induction l with
  | nil => simp [stableSort]
  | cons x xs ih => exact pairwise_insertSorted le htot htrans x _ ih

/-! ## Lemmas: the string comparator -/

theorem lexLeChars_cons_cons (x y : Char) (xs ys : List Char) :
    lexLeChars (x :: xs) (y :: ys)
      = if x.toNat < y.toNat then true
        else if y.toNat < x.toNat then false else lexLeChars xs ys := rfl

theorem lexLeChars_total (a : List Char) : ∀ b, lexLeChars a b = true ∨ lexLeChars b a = true := by
  induction a with
  | nil => intro b; left; rfl
  | cons x xs ih =>
      intro b
      cases b with
      | nil => right; rfl
      | cons y ys =>
          rcases Nat.lt_trichotomy x.toNat y.toNat with h | h | h
          · left; rw [lexLeChars_cons_cons, if_pos h]
          · rcases ih ys with h' | h'
            · left
              rw [lexLeChars_cons_cons, if_neg (by omega), if_neg (by omega)]
              exact h'
            · right
              rw [lexLeChars_cons_cons, if_neg (by omega), if_neg (by omega)]
              exact h'
          · right; rw [lexLeChars_cons_cons, if_pos h]

theorem lexLeChars_trans (a : List Char) :
    ∀ b c, lexLeChars a b = true → lexLeChars b c = true → lexLeChars a c = true := by
  induction a with
  | nil => intro b c _ _; rfl
  | cons x xs ih =>
      intro b c hab hbc
      cases b with
      | nil => exact absurd hab (by simp [lexLeChars])
      | cons y ys =>
          cases c with
          | nil => exact absurd hbc (by simp [lexLeChars])
          | cons z zs =>
              rcases Nat.lt_trichotomy x.toNat y.toNat with h1 | h1 | h1
              · rcases Nat.lt_trichotomy y.toNat z.toNat with h2 | h2 | h2
                · rw [lexLeChars_cons_cons, if_pos (by omega : x.toNat < z.toNat)]
                · rw [lexLeChars_cons_cons, if_pos (by omega : x.toNat < z.toNat)]
                · rw [lexLeChars_cons_cons, if_neg (by omega), if_pos h2] at hbc
                  simp at hbc
              · rcases Nat.lt_trichotomy y.toNat z.toNat with h2 | h2 | h2
                · rw [lexLeChars_cons_cons, if_pos (by omega : x.toNat < z.toNat)]
                · rw [lexLeChars_cons_cons, if_neg (by omega), if_neg (by omega)] at hab
                  rw [lexLeChars_cons_cons, if_neg (by omega), if_neg (by omega)] at hbc
                  rw [lexLeChars_cons_cons, if_neg (by omega), if_neg (by omega)]
                  exact ih ys zs hab hbc
                · rw [lexLeChars_cons_cons, if_neg (by omega), if_pos h2] at hbc
                  simp at hbc
              · rw [lexLeChars_cons_cons, if_neg (by omega), if_pos h1] at hab
                simp at hab

theorem jsStrLe_total (a b : String) : jsStrLe a b = true ∨ jsStrLe b a = true :=
  lexLeChars_total a.data b.data

theorem jsStrLe_trans (a b c : String) :
    jsStrLe a b = true → jsStrLe b c = true → jsStrLe a c = true :=
  lexLeChars_trans a.data b.data c.data

/-! ## Lemmas: fold characterisations of the per-bucket accumulators -/

theorem foldl_addQtyUpd (rows : List NormalizedOrderData) :
    ∀ q0 : Int, rows.foldl (fun q r => addQtyUpd r q) q0
      = q0 + (rows.map (fun r => r.item_quantity)).sum := by
  induction rows with
  | nil => intro q0; simp
  | cons r rows ih =>
      intro q0
      rw [List.foldl_cons, ih]
      unfold addQtyUpd
      simp only [List.map_cons, List.sum_cons]
      omega

theorem foldl_countItemsUpd_count (rows : List NormalizedOrderData) :
    ∀ c : CountItems, (rows.foldl (fun b r => countItemsUpd r b) c).count
      = c.count + rows.length := by
  induction rows with
  | nil => intro c; simp
  | cons r rows ih =>
      intro c
      rw [List.foldl_cons, ih]
      show c.count + 1 + rows.length = _
      simp only [List.length_cons]
      omega

theorem foldl_countItemsUpd_items (rows : List NormalizedOrderData) :
    ∀ c : CountItems, (rows.foldl (fun b r => countItemsUpd r b) c).items
      = c.items + (rows.map (fun r => r.item_quantity)).sum := by
  induction rows with
  | nil => intro c; simp
  | cons r rows ih =>
      intro c
      rw [List.foldl_cons, ih]
      show c.items + r.item_quantity + _ = _
      simp only [List.map_cons, List.sum_cons]
      omega

theorem foldl_monthAggUpd_count (rows : List NormalizedOrderData) :
    ∀ c : MonthAgg, (rows.foldl (fun b r => monthAggUpd r b) c).totalOrderCount
      = c.totalOrderCount + rows.length := by
  induction rows with
  | nil => intro c; simp
  | cons r rows ih =>
      intro c
      rw [List.foldl_cons, ih]
      show c.totalOrderCount + 1 + rows.length = _
      simp only [List.length_cons]
      omega

theorem foldl_monthAggUpd_qty (rows : List NormalizedOrderData) :
    ∀ c : MonthAgg, (rows.foldl (fun b r => monthAggUpd r b) c).totalQuantity
      = c.totalQuantity + (rows.map (fun r => r.item_quantity)).sum := by
  induction rows with
  | nil => intro c; simp
  | cons r rows ih =>
      intro c
      rw [List.foldl_cons, ih]
      show c.totalQuantity + r.item_quantity + _ = _
      simp only [List.map_cons, List.sum_cons]
      omega

theorem foldl_monthAggUpd_uniq (rows : List NormalizedOrderData) :
    ∀ c : MonthAgg, (rows.foldl (fun b r => monthAggUpd r b) c).uniqueOrders
      = ((rows.map (fun r => r.order_id)).filter (fun s => s ≠ "")).foldl addSet
          c.uniqueOrders := by
  induction rows with
  | nil => intro c; simp
  | cons r rows ih =>
      intro c
      rw [List.foldl_cons, ih]
      by_cases h : r.order_id ≠ ""
      · have hupd : (monthAggUpd r c).uniqueOrders = addSet c.uniqueOrders r.order_id := by
          unfold monthAggUpd; rw [if_pos h]
        rw [hupd]
        have hfil : ((r :: rows).map (fun r => r.order_id)).filter (fun s => s ≠ "")
            = r.order_id :: (rows.map (fun r => r.order_id)).filter (fun s => s ≠ "") := by
          simp only [List.map_cons, List.filter_cons]
          rw [if_pos (by simpa using h)]
        rw [hfil, List.foldl_cons]
      · have hupd : (monthAggUpd r c).uniqueOrders = c.uniqueOrders := by
          unfold monthAggUpd; rw [if_neg h]
        rw [hupd]
        have hfil : ((r :: rows).map (fun r => r.order_id)).filter (fun s => s ≠ "")
            = (rows.map (fun r => r.order_id)).filter (fun s => s ≠ "") := by
          simp only [List.map_cons, List.filter_cons]
          rw [if_neg (by simpa using h)]
        rw [hfil]

theorem foldl_monthlyCellUpd_items (rows : List NormalizedOrderData) :
    ∀ c : MonthlyCell, (rows.foldl (fun b r => monthlyCellUpd r b) c).items
      = c.items + (rows.map (fun r => r.item_quantity)).sum := by
  induction rows with
  | nil => intro c; simp
  | cons r rows ih =>
      intro c
      rw [List.foldl_cons, ih]
      show c.items + r.item_quantity + _ = _
      simp only [List.map_cons, List.sum_cons]
      omega

theorem specificScan_foldl (jsDate : String → Option Int) (target : String)
    (orders : List NormalizedOrderData) :
    ∀ acc : List SpecificRowInfo × List String,
      orders.foldl
        (fun acc r =>
          if specificHitB jsDate target r then
            (acc.1 ++ [specificRowOf r], addSet acc.2 r.delivery_country)
          else acc) acc
      = (acc.1 ++ (orders.filter (specificHitB jsDate target)).map specificRowOf,
         ((orders.filter (specificHitB jsDate target)).map
            (fun r => r.delivery_country)).foldl addSet acc.2) := by
  induction orders with
  | nil => intro acc; simp
  | cons r orders ih =>
      intro acc
      rw [List.foldl_cons]
      by_cases h : specificHitB jsDate target r
      · rw [if_pos h, ih]
        simp [List.filter_cons, h]
      · rw [if_neg h, ih]
        simp [List.filter_cons, h]

theorem specificScan_eq (jsDate : String → Option Int) (orders : List NormalizedOrderData)
    (target : String) :
    specificScan jsDate orders target
      = ((orders.filter (specificHitB jsDate target)).map specificRowOf,
         ((orders.filter (specificHitB jsDate target)).map
            (fun r => r.delivery_country)).foldl addSet []) := by
  unfold specificScan
  rw [specificScan_foldl]
  simp

/-! ## Lemmas: sum splitting and positivity -/

theorem sum_map_filter_split {α : Type} (l : List α) (p q : α → Bool) (c : α → Int) :
    ((l.filter p).map c).sum
      = ((l.filter (fun a => p a && q a)).map c).sum
        + ((l.filter (fun a => p a && !q a)).map c).sum := by
  induction l with
  | nil => simp
  | cons x l ih =>
      by_cases hp : p x
      · by_cases hq : q x
        · simp [List.filter_cons, hp, hq]
          omega
        · have hq' : q x = false := by simpa using hq
          simp [List.filter_cons, hp, hq']
          omega
      · have hp' : p x = false := by simpa using hp
        simp [List.filter_cons, hp']
        omega

theorem sum_map_nonneg {α : Type} (l : List α) (c : α → Int) (h : ∀ x ∈ l, 0 ≤ c x) :
    0 ≤ (l.map c).sum := by
  induction l with
  | nil => simp
  | cons x l ih =>
      simp only [List.map_cons, List.sum_cons]
      have h1 := h x (List.mem_cons_self _ _)
      have h2 := ih (fun y hy => h y (List.mem_cons_of_mem _ hy))
      omega

theorem filter_isSome_and_eq {α : Type} (key : α → Option String) (k : String) (l : List α) :
    l.filter (fun a => (key a).isSome && decide (key a = some k))
      = l.filter (fun a => key a = some k) := by
  refine List.filter_congr ?_
  intro a _
  cases hk : key a with
  | none => simp
  | some k' => simp

/-! ## Lemmas: the tenths-of-a-percent share -/

theorem pctTenths_bounds (q T : Int) (h0 : 0 ≤ q) (h1 : q ≤ T) (h2 : 0 < T) :
    ∃ v : Int, pctTenths q T = some v ∧ 0 ≤ v ∧ v ≤ 1000
      ∧ (v : ℚ) = ⌊(q : ℚ) / (T : ℚ) * 100 * 10 + 1 / 2⌋ := by
  have hT : T ≠ 0 := by omega
  have h2T : (0 : Int) < 2 * T := by omega
  refine ⟨(2 * (q * 1000) + T).fdiv (2 * T), ?_, ?_, ?_, ?_⟩
  · unfold pctTenths
    rw [if_neg hT]
  · rw [Int.fdiv_eq_ediv _ (by omega)]
    exact Int.ediv_nonneg (by omega) (by omega)
  · rw [Int.fdiv_eq_ediv _ (by omega)]
    have hlt : (2 * (q * 1000) + T) / (2 * T) < 1001 :=
      (Int.ediv_lt_iff_lt_mul h2T).mpr (by omega)
    omega
  · rw [Int.fdiv_eq_ediv _ (by omega)]
    have hTQ : ((T : ℚ)) ≠ 0 := Int.cast_ne_zero.mpr hT
    have hstep : (q : ℚ) / (T : ℚ) * 100 * 10 + 1 / 2
        = ((2 * (q * 1000) + T : Int) : ℚ) / (((2 * T : Int).toNat : ℕ) : ℚ) := by
      have htn : (((2 * T : Int).toNat : ℕ) : ℚ) = ((2 * T : Int) : ℚ) := by
        have h' : ((2 * T : Int).toNat : ℤ) = 2 * T := Int.toNat_of_nonneg (by omega)
        calc (((2 * T : Int).toNat : ℕ) : ℚ)
            = ((((2 * T : Int).toNat : ℕ) : ℤ) : ℚ) := by push_cast; ring
          _ = ((2 * T : Int) : ℚ) := by rw [h']
      rw [htn]
      push_cast
      field_simp
      ring
    rw [hstep, Rat.floor_intCast_div_natCast]
    have : ((2 * T : Int).toNat : Int) = 2 * T := Int.toNat_of_nonneg (by omega)
    rw [this]

/-! ## Lemmas: timestamp day shifts under a host offset -/

theorem fdiv_1440_pos_shift (D tz : Int) (h1 : 1 ≤ tz) (h2 : tz ≤ 840) :
    (D * 1440 + 1439 + tz).fdiv 1440 = D + 1 := by
  rw [Int.fdiv_eq_ediv _ (by omega)]
  omega

theorem fdiv_1440_neg_shift (D tz : Int) (h1 : -840 ≤ tz) (h2 : tz ≤ -1) :
    (D * 1440 + tz).fdiv 1440 = D - 1 := by
  rw [Int.fdiv_eq_ediv _ (by omega)]
  omega

/-! ## Lemmas: sums of squared deviations (descriptive statistics) -/

theorem sum_sq_dev (vs : List ℚ) (c : ℚ) :
    (vs.map (fun v => (v - c) ^ 2)).sum
      = (vs.map (fun v => v ^ 2)).sum - 2 * c * vs.sum + (vs.length : ℚ) * c ^ 2 := by
  induction vs with
  | nil => simp
  | cons x vs ih =>
      simp only [List.map_cons, List.sum_cons, List.length_cons, ih]
      push_cast
      ring

theorem sum_sq_dev_nonneg (vs : List ℚ) (c : ℚ) :
    0 ≤ (vs.map (fun v => (v - c) ^ 2)).sum := by
  induction vs with
  | nil => simp
  | cons x vs ih =>
      simp only [List.map_cons, List.sum_cons]
      have := sq_nonneg (x - c)
      linarith

theorem sum_sq_dev_eq_zero (vs : List ℚ) (c : ℚ)
    (h : (vs.map (fun v => (v - c) ^ 2)).sum = 0) : ∀ v ∈ vs, v = c := by
  induction vs with
  | nil => simp
  | cons x vs ih =>
      simp only [List.map_cons, List.sum_cons] at h
      have h1 := sq_nonneg (x - c)
      have h2 := sum_sq_dev_nonneg vs c
      have hx : (x - c) ^ 2 = 0 := by linarith
      have htail : (vs.map (fun v => (v - c) ^ 2)).sum = 0 := by linarith
      intro v hv
      rcases List.mem_cons.mp hv with rfl | hv'
      · have := pow_eq_zero_iff (n := 2) (by omega) |>.mp hx
        linarith [sub_eq_zero.mp this]
      · exact ih htail v hv'

theorem two_mem_length_ge (vs : List ℚ) (a b : ℚ) (ha : a ∈ vs) (hb : b ∈ vs) (hab : a ≠ b) :
    2 ≤ vs.length := by
  cases vs with
  | nil => cases ha
  | cons x vs =>
      cases vs with
      | nil =>
          rw [List.mem_singleton] at ha hb
          exact absurd (ha.trans hb.symm) hab
      | cons y vs => simp only [List.length_cons]; omega

/-! ## Claim C6 -/

/-- C6: the record normalizer is a total function over arbitrary row shapes:
every row (in either the database-style or the CSV-header-style naming) maps
to exactly one canonical record, a missing or unparseable numeric field
coerces to 0, and every missing string field coerces to the empty string. -/
theorem c6_normalizer_total (rows : List OrderData) (row : OrderData) :
    (normalizeOrderData rows).length = rows.length
    ∧ (row.item_quantity = none → row.csvItemQuantity = none →
        (normalizeRow row).item_quantity = 0)
    ∧ (row.item_quantity = none → ∀ s, row.csvItemQuantity = some s →
        parseIntJS s = none → (normalizeRow row).item_quantity = 0)
    ∧ (row.id = none → (normalizeRow row).id = 0)
    ∧ (row.order_id = none → row.OrderID = none → (normalizeRow row).order_id = "")
    ∧ (row.variation_number = none → row.csvVariationNumber = none →
        (normalizeRow row).variation_number = "")
    ∧ (row.order_date = none → row.csvOrderDate = none → (normalizeRow row).order_date = "")
    ∧ (row.variation_name = none → row.csvVariationName = none →
        (normalizeRow row).variation_name = "")
    ∧ (row.attribute = none → row.csvAttribute = none → (normalizeRow row).attribute = "")
    ∧ (row.marketplace = none → row.csvMarketplace = none →
        (normalizeRow row).marketplace = "")
    ∧ (row.delivery_country = none → row.csvDeliveryCountry = none →
        (normalizeRow row).delivery_country = "")
    ∧ (row.created_at = none → (normalizeRow row).created_at = "") := by
  refine ⟨by simp [normalizeOrderData], ?_, ?_, ?_, ?_, ?_, ?_, ?_, ?_, ?_, ?_, ?_⟩
  · intro h1 h2
    simp only [normalizeRow]
    rw [h1, h2]
    decide
  · intro h1 s h2 h3
    simp only [normalizeRow]
    rw [h1, h2]
    by_cases hs : s = ""
    · subst hs; decide
    · simp [orStr1, truthyStr, hs, h3, truthyInt]
  · intro h1
    simp only [normalizeRow]
    rw [h1]
    decide
  · intro h1 h2
    simp [normalizeRow, orStr2, h1, h2, truthyStr]
  · intro h1 h2
    simp [normalizeRow, orStr2, h1, h2, truthyStr]
  · intro h1 h2
    simp [normalizeRow, orStr2, h1, h2, truthyStr]
  · intro h1 h2
    simp [normalizeRow, orStr2, h1, h2, truthyStr]
  · intro h1 h2
    simp [normalizeRow, orStr2, h1, h2, truthyStr]
  · intro h1 h2
    simp [normalizeRow, orStr2, h1, h2, truthyStr]
  · intro h1 h2
    simp [normalizeRow, orStr2, h1, h2, truthyStr]
  · intro h1
    simp [normalizeRow, orStr1, h1, truthyStr]

/-- C6 witness: the all-missing row normalizes to the zero record. -/
theorem c6_normalizer_total_witness :
    (normalizeOrderData [demoC6row]).length = 1
    ∧ (normalizeRow demoC6row).item_quantity = 0
    ∧ (normalizeRow demoC6row).order_id = "" := by
  refine ⟨(c6_normalizer_total [demoC6row] demoC6row).1, ?_, ?_⟩
  · exact (c6_normalizer_total [demoC6row] demoC6row).2.1 rfl rfl
  · exact (c6_normalizer_total [demoC6row] demoC6row).2.2.2.2.1 rfl rfl

/-! ## Claim C10 -/

/-- C10: the normalizer prefers the database-style field only when its value
is truthy: a truthy database quantity wins; a database `item_quantity` of 0
falls through to the parsed CSV `'Item Quantity'` value; an empty
database-style string field falls through to the CSV-style value. -/
theorem c10_truthiness_fallthrough (row : OrderData) :
    (∀ n : Int, row.item_quantity = some n → n ≠ 0 →
      (normalizeRow row).item_quantity = n)
    ∧ (∀ s v, row.item_quantity = some 0 → row.csvItemQuantity = some s →
        parseIntJS s = some v → v ≠ 0 → (normalizeRow row).item_quantity = v)
    ∧ (∀ m, row.marketplace = some "" → row.csvMarketplace = some m → m ≠ "" →
        (normalizeRow row).marketplace = m) := by
  refine ⟨?_, ?_, ?_⟩
  · intro n h hn
    simp [normalizeRow, h, truthyInt, hn]
  · intro s v h0 hs hp hv
    simp only [normalizeRow]
    rw [h0, hs]
    by_cases hs0 : s = ""
    · subst hs0
      have hnone : parseIntJS "" = (none : Option Int) := by decide
      rw [hnone] at hp
      cases hp
    · simp [orStr1, truthyStr, hs0, hp, truthyInt, hv]
  · intro m h1 h2 hm
    simp [normalizeRow, orStr2, h1, h2, truthyStr, hm]

/-- C10 witness: database quantity 0 with CSV quantity `"7"` yields 7, and an
empty database marketplace with CSV marketplace `"Amazon"` yields `"Amazon"`. -/
theorem c10_truthiness_fallthrough_witness :
    (normalizeRow demoC10row).item_quantity = 7
    ∧ (normalizeRow demoC10row).marketplace = "Amazon" := by
  refine ⟨?_, ?_⟩
  · exact (c10_truthiness_fallthrough demoC10row).2.1 "7" 7 rfl rfl (by decide) (by decide)
  · exact (c10_truthiness_fallthrough demoC10row).2.2 "Amazon" rfl rfl (by decide)

/-! ## Claim C8 -/

/-- C8: the descriptive statistics use the population convention: the
variance under the square root is the mean of squared deviations divided by
`N` (equal to the textbook population formula), and for any sample with two
distinct values it is strictly below the `N - 1` sample variance, so the
code does not implement the sample convention. -/
theorem c8_population_stddev (values : List ℚ) (h : values ≠ []) :
    calcVariance values = populationVarianceSpec values
    ∧ (∀ a ∈ values, ∀ b ∈ values, a ≠ b →
        calcVariance values < sampleVarianceSpec values) := by
  have hn : (0 : ℚ) < (values.length : ℚ) := by
    have : 0 < values.length := List.length_pos.mpr h
    exact_mod_cast this
  have hn' : ((values.length : ℚ)) ≠ 0 := ne_of_gt hn
  constructor
  · unfold calcVariance populationVarianceSpec calcMean
    rw [sum_sq_dev]
    field_simp
    ring
  · intro a ha b hb hab
    have h2 : 2 ≤ values.length := two_mem_length_ge values a b ha hb hab
    have h2Q : (2 : ℚ) ≤ (values.length : ℚ) := by exact_mod_cast h2
    have hS0 : 0 ≤ (values.map (fun v => (v - calcMean values) ^ 2)).sum :=
      sum_sq_dev_nonneg values (calcMean values)
    have hSne : (values.map (fun v => (v - calcMean values) ^ 2)).sum ≠ 0 := by
      intro hz
      have hall := sum_sq_dev_eq_zero values (calcMean values) hz
      exact hab ((hall a ha).trans (hall b hb).symm)
    have hS : 0 < (values.map (fun v => (v - calcMean values) ^ 2)).sum :=
      lt_of_le_of_ne hS0 (Ne.symm hSne)
    unfold calcVariance sampleVarianceSpec
    exact div_lt_div_of_pos_left hS (by linarith) (by linarith)

/-- C8 witness: on the sample `[0, 1, 2]` the code variance equals the
population formula and is strictly below the sample variance. -/
theorem c8_population_stddev_witness :
    calcVariance demoC8 = populationVarianceSpec demoC8
    ∧ calcVariance demoC8 < sampleVarianceSpec demoC8 := by
  have h := c8_population_stddev demoC8 (by simp [demoC8])
  exact ⟨h.1, h.2 0 (by simp [demoC8]) 1 (by simp [demoC8]) (by simp)⟩

/-! ## Claim C3 -/

/-- C3 (amended): in each of the four categorical dimensions — attribute,
marketplace, delivery country, and product/variation name — every group key
is the whitespace-trimmed field value of a record whose raw field is
non-empty; records with an empty-string field are excluded, but a
whitespace-only field passes the truthiness guard and contributes the empty
string as a group key (see the counterexample). -/
theorem c3_group_keys_trimmed (orders : List NormalizedOrderData) (k : String) :
    (k ∈ keysOf (marketplaceData orders) ↔
      ∃ r ∈ orders, r.marketplace ≠ "" ∧ jsTrim r.marketplace = k)
    ∧ (k ∈ keysOf (attributeData orders) ↔
      ∃ r ∈ orders, r.attribute ≠ "" ∧ jsTrim r.attribute = k)
    ∧ (k ∈ keysOf (countryData orders) ↔
      ∃ r ∈ orders, r.delivery_country ≠ "" ∧ jsTrim r.delivery_country = k)
    ∧ (k ∈ keysOf (productData orders) ↔
      ∃ r ∈ orders, r.variation_name ≠ "" ∧ jsTrim r.variation_name = k) := by
  refine ⟨?_, ?_, ?_, ?_⟩
  · rw [marketplaceData, mem_keysOf_groupFold]
    refine exists_congr fun r => and_congr_right fun _ => ?_
    by_cases h : r.marketplace ≠ "" <;> simp [h]
  · rw [attributeData, mem_keysOf_groupFold]
    refine exists_congr fun r => and_congr_right fun _ => ?_
    by_cases h : r.attribute ≠ "" <;> simp [h]
  · rw [countryData, mem_keysOf_groupFold]
    refine exists_congr fun r => and_congr_right fun _ => ?_
    by_cases h : r.delivery_country ≠ "" <;> simp [h]
  · rw [productData, mem_keysOf_groupFold]
    refine exists_congr fun r => and_congr_right fun _ => ?_
    by_cases h : r.variation_name ≠ "" <;> simp [h]

/-- C3 counterexample: a record whose attribute, marketplace, delivery
country and variation name are each a single space produces the empty
string as a group key in all four dimensions, refuting the claim that
whitespace-only fields are excluded. -/
theorem c3_whitespace_key_counterexample :
    keysOf (marketplaceData demoC3) = [""]
    ∧ keysOf (attributeData demoC3) = [""]
    ∧ keysOf (countryData demoC3) = [""]
    ∧ keysOf (productData demoC3) = [""]
    ∧ "" ∈ keysOf (marketplaceData demoC3) := by
  refine ⟨by decide, by decide, by decide, by decide, by decide⟩

/-! ## Claim C4 -/

/-- C4 (amended): conservation holds for the aggregations that return every
group (marketplace, country): the sum of per-group summed quantities equals
the sum of `item_quantity` over records with a non-empty dimension value.
For the product and attribute breakdowns, which return only the top 20
groups, it holds under the hypothesis that at most 20 distinct values occur
(the counterexample shows it fails with 21). -/
theorem c4_conservation (orders : List NormalizedOrderData) :
    ((marketplaceEntriesSorted orders).map (fun p => p.2.items)).sum
      = ((orders.filter (fun r => r.marketplace ≠ "")).map (fun r => r.item_quantity)).sum
    ∧ ((countryEntriesSorted orders).map (fun p => p.2.items)).sum
      = ((orders.filter (fun r => r.delivery_country ≠ "")).map
          (fun r => r.item_quantity)).sum
    ∧ ((productData orders).length ≤ 20 →
        ((topProductEntries orders).map (fun p => p.2)).sum
          = ((orders.filter (fun r => r.variation_name ≠ "")).map
              (fun r => r.item_quantity)).sum)
    ∧ ((attributeData orders).length ≤ 20 →
        ((topAttributeEntries orders).map (fun p => p.2)).sum
          = ((orders.filter (fun r => r.attribute ≠ "")).map
              (fun r => r.item_quantity)).sum) := by
  have hmp : ((marketplaceData orders).map (fun p => p.2.items)).sum
      = ((orders.filter (fun r => r.marketplace ≠ "")).map (fun r => r.item_quantity)).sum := by
    have hsum := sum_map_groupFold
      (fun r : NormalizedOrderData =>
        if r.marketplace ≠ "" then some (jsTrim r.marketplace) else none)
      countItemsUpd (⟨0, 0⟩ : CountItems) (fun c => c.items) (fun r => r.item_quantity)
      (fun r b => rfl) rfl orders
    rw [marketplaceData]
    refine hsum.trans ?_
    refine congrArg _ (congrArg _ (List.filter_congr fun r _ => ?_))
    by_cases h : r.marketplace ≠ "" <;> simp [h]
  have hco : ((countryData orders).map (fun p => p.2.items)).sum
      = ((orders.filter (fun r => r.delivery_country ≠ "")).map
          (fun r => r.item_quantity)).sum := by
    have hsum := sum_map_groupFold
      (fun r : NormalizedOrderData =>
        if r.delivery_country ≠ "" then some (jsTrim r.delivery_country) else none)
      countItemsUpd (⟨0, 0⟩ : CountItems) (fun c => c.items) (fun r => r.item_quantity)
      (fun r b => rfl) rfl orders
    rw [countryData]
    refine hsum.trans ?_
    refine congrArg _ (congrArg _ (List.filter_congr fun r _ => ?_))
    by_cases h : r.delivery_country ≠ "" <;> simp [h]
  have hpr : ((productData orders).map (fun p => p.2)).sum
      = ((orders.filter (fun r => r.variation_name ≠ "")).map
          (fun r => r.item_quantity)).sum := by
    have hsum := sum_map_groupFold
      (fun r : NormalizedOrderData =>
        if r.variation_name ≠ "" then some (jsTrim r.variation_name) else none)
      addQtyUpd (0 : Int) (fun q => q) (fun r => r.item_quantity)
      (fun r b => rfl) rfl orders
    rw [productData]
    refine hsum.trans ?_
    refine congrArg _ (congrArg _ (List.filter_congr fun r _ => ?_))
    by_cases h : r.variation_name ≠ "" <;> simp [h]
  have hat : ((attributeData orders).map (fun p => p.2)).sum
      = ((orders.filter (fun r => r.attribute ≠ "")).map (fun r => r.item_quantity)).sum := by
    have hsum := sum_map_groupFold
      (fun r : NormalizedOrderData =>
        if r.attribute ≠ "" then some (jsTrim r.attribute) else none)
      addQtyUpd (0 : Int) (fun q => q) (fun r => r.item_quantity)
      (fun r b => rfl) rfl orders
    rw [attributeData]
    refine hsum.trans ?_
    refine congrArg _ (congrArg _ (List.filter_congr fun r _ => ?_))
    by_cases h : r.attribute ≠ "" <;> simp [h]
  refine ⟨?_, ?_, ?_, ?_⟩
  · rw [← hmp]
    exact List.Perm.sum_eq ((stableSort_perm descByItems (marketplaceData orders)).map _)
  · rw [← hco]
    exact List.Perm.sum_eq ((stableSort_perm descByItems (countryData orders)).map _)
  · intro h20
    rw [← hpr]
    unfold topProductEntries
    rw [List.take_of_length_le (by
      rw [(stableSort_perm descByVal (productData orders)).length_eq]
      exact h20)]
    exact List.Perm.sum_eq ((stableSort_perm descByVal (productData orders)).map _)
  · intro h20
    rw [← hat]
    unfold topAttributeEntries
    rw [List.take_of_length_le (by
      rw [(stableSort_perm descByVal (attributeData orders)).length_eq]
      exact h20)]
    exact List.Perm.sum_eq ((stableSort_perm descByVal (attributeData orders)).map _)

/-- C4 counterexample: with 21 distinct products of one unit each, the
returned top-20 product groups sum to 20 while the records with a non-empty
product name sum to 21, so conservation fails for the truncated breakdown. -/
theorem c4_top20_counterexample :
    ((topProductEntries demoC4).map (fun p => p.2)).sum = 20
    ∧ ((demoC4.filter (fun r => r.variation_name ≠ "")).map
        (fun r => r.item_quantity)).sum = 21
    ∧ ((topProductEntries demoC4).map (fun p => p.2)).sum
        ≠ ((demoC4.filter (fun r => r.variation_name ≠ "")).map
            (fun r => r.item_quantity)).sum := by
  refine ⟨by decide, by decide, by decide⟩

/-- C4 witness: on a two-product, two-marketplace dataset the product
conservation (at most 20 groups) and marketplace conservation both hold. -/
theorem c4_conservation_witness :
    ((topProductEntries demoC4w).map (fun p => p.2)).sum
      = ((demoC4w.filter (fun r => r.variation_name ≠ "")).map
          (fun r => r.item_quantity)).sum
    ∧ ((marketplaceEntriesSorted demoC4w).map (fun p => p.2.items)).sum
      = ((demoC4w.filter (fun r => r.marketplace ≠ "")).map
          (fun r => r.item_quantity)).sum := by
  exact ⟨(c4_conservation demoC4w).2.2.1 (by decide), (c4_conservation demoC4w).1⟩

/-! ## Claim C7 -/

/-- C7 (amended): in every monthly bucket of the analytics map, the reported
unique-order count is at most the reported row count, with equality iff no
`order_id` repeats among the bucket's rows AND every row in the bucket has a
non-empty `order_id` (rows with an empty id are counted but never enter the
unique set; see the counterexample). -/
theorem c7_unique_le_rows (jsDate : String → Option Int) (tz : Int)
    (orders : List NormalizedOrderData) (k : String) (cell : MonthAgg)
    (h : lookupA (monthlyAnalysis jsDate tz orders) k = some cell) :
    cell.uniqueOrders.length ≤ cell.totalOrderCount
    ∧ (cell.uniqueOrders.length = cell.totalOrderCount ↔
        (((orders.filter (fun r => monthKeyOfRec jsDate tz r = some k)).map
            (fun r => r.order_id)).Nodup
          ∧ ∀ r ∈ orders.filter (fun r => monthKeyOfRec jsDate tz r = some k),
              r.order_id ≠ "")) := by
  rw [monthlyAnalysis, lookupA_groupFold] at h
  by_cases hemp :
      (orders.filter (fun r => monthKeyOfRec jsDate tz r = some k)).isEmpty
  · rw [if_pos hemp] at h
    cases h
  · rw [if_neg hemp] at h
    have hfold := Option.some.inj h
    set sub := orders.filter (fun r => monthKeyOfRec jsDate tz r = some k) with hsub
    have huniq : cell.uniqueOrders
        = ((sub.map (fun r => r.order_id)).filter (fun s => s ≠ "")).foldl addSet [] := by
      rw [← hfold, foldl_monthAggUpd_uniq]
    have hcount : cell.totalOrderCount = sub.length := by
      rw [← hfold, foldl_monthAggUpd_count]
      simp
    have hle1 := length_foldl_addSet_nil_le
      ((sub.map (fun r => r.order_id)).filter (fun s => s ≠ ""))
    have hle2 := List.length_filter_le (fun s => decide (s ≠ ""))
      (sub.map (fun r => r.order_id))
    have hlen : (sub.map (fun r => r.order_id)).length = sub.length :=
      List.length_map sub _
    constructor
    · rw [huniq, hcount]
      omega
    · rw [huniq, hcount]
      constructor
      · intro heq
        have hfl : ((sub.map (fun r => r.order_id)).filter (fun s => s ≠ "")).length
            = (sub.map (fun r => r.order_id)).length := by omega
        have hfeq := (List.filter_sublist _).eq_of_length hfl
        have hnd : ((sub.map (fun r => r.order_id)).filter (fun s => s ≠ "")).Nodup := by
          rw [← length_foldl_addSet_nil_eq_iff
            ((sub.map (fun r => r.order_id)).filter (fun s => s ≠ ""))]
          omega
        rw [hfeq] at hnd
        refine ⟨hnd, fun r hr => ?_⟩
        have hall := List.filter_eq_self.mp hfeq
        have := hall r.order_id (List.mem_map_of_mem _ hr)
        simpa using this
      · rintro ⟨hnd, hall⟩
        have hfeq : (sub.map (fun r => r.order_id)).filter (fun s => s ≠ "")
            = sub.map (fun r => r.order_id) := by
          refine List.filter_eq_self.mpr ?_
          intro s hs
          rcases List.mem_map.mp hs with ⟨r, hr, rfl⟩
          simpa using hall r hr
        rw [hfeq]
        have := (length_foldl_addSet_nil_eq_iff (sub.map (fun r => r.order_id))).mpr hnd
        omega

/-- C7 counterexample: one resolvable record with an empty `order_id` forms
a bucket whose row count is 1 and unique count 0; no id repeats, so the
claimed 'equality iff no repeats' fails. -/
theorem c7_empty_orderid_counterexample :
    lookupA (monthlyAnalysis parseISO 0 demoC7) "2024-01"
      = some ⟨[], 5, 1⟩
    ∧ ((demoC7.filter (fun r => monthKeyOfRec parseISO 0 r = some "2024-01")).map
        (fun r => r.order_id)).Nodup
    ∧ ((⟨[], 5, 1⟩ : MonthAgg).uniqueOrders.length
        ≠ (⟨[], 5, 1⟩ : MonthAgg).totalOrderCount) := by
  refine ⟨by decide, by decide, by decide⟩

/-- C7 witness: the scenario-1 January bucket (two rows sharing id `A`) has
unique count 1 and row count 2. -/
theorem c7_unique_le_rows_witness :
    (⟨["A"], 5, 2⟩ : MonthAgg).uniqueOrders.length
      ≤ (⟨["A"], 5, 2⟩ : MonthAgg).totalOrderCount :=
  (c7_unique_le_rows parseISO 0 demoC7w "2024-01" ⟨["A"], 5, 2⟩ (by decide)).1

/-! ## Claim C1 -/

/-- Helper: the populated answer of `calculateSpecificDate` can never equal
the explicit not-found message (their lengths differ for every target). -/
theorem specific_populated_ne_noOrders (target C N D E : String) :
    "Orders on " ++ target ++ ":\n- Countries: " ++ C ++ "\n- Total orders: " ++ N
      ++ "\n- Order details: " ++ D ++ E ≠ "No orders found for " ++ target := by
  intro h
  have hl := congrArg String.length h
  simp only [String.length_append] at hl
  have e1 : ("Orders on " : String).length = 10 := by decide
  have e2 : (":\n- Countries: " : String).length = 15 := by decide
  have e3 : ("\n- Total orders: " : String).length = 17 := by decide
  have e4 : ("\n- Order details: " : String).length = 18 := by decide
  have e5 : ("No orders found for " : String).length = 20 := by decide
  rw [e1, e2, e3, e4, e5] at hl
  omega

/-- Helper: the loop guard of `calculateSpecificDate` holds exactly for
records whose UTC day equals the target and whose country is non-empty. -/
theorem specificHitB_iff (jsDate : String → Option Int) (target : String)
    (r : NormalizedOrderData) :
    specificHitB jsDate target r = true ↔
      isoDayOfRec jsDate r = some target ∧ r.delivery_country ≠ "" := by
  unfold specificHitB isoDayOfRec
  cases h : resolveDate jsDate r <;> simp [h]

/-- C1 (amended): `calculateSpecificDate` returns the explicit
`'No orders found for <date>'` string iff no record both resolves to the
target UTC day and carries a non-empty delivery country; when such records
exist it reports their number as the row count and their distinct
(non-empty, untrimmed) delivery countries as the country set.  Records
resolving to the date with an empty country are dropped entirely — so a
date whose matching rows all lack a country is reported as not found (see
the counterexample), where the claim expected those rows with an empty
country set. -/
theorem c1_specific_date_reporting (jsDate : String → Option Int)
    (orders : List NormalizedOrderData) (target : String) :
    (calculateSpecificDate jsDate orders target = "No orders found for " ++ target
      ↔ orders.filter (specificHitB jsDate target) = [])
    ∧ (specificDateResults jsDate orders target).length
        = (orders.filter (specificHitB jsDate target)).length
    ∧ (∀ c, c ∈ specificDateCountries jsDate orders target ↔
        ∃ r ∈ orders, isoDayOfRec jsDate r = some target ∧ r.delivery_country = c
          ∧ c ≠ "") := by
  have hres : specificDateResults jsDate orders target
      = (orders.filter (specificHitB jsDate target)).map specificRowOf := by
    unfold specificDateResults
    rw [specificScan_eq]
  have hcty : specificDateCountries jsDate orders target
      = ((orders.filter (specificHitB jsDate target)).map
          (fun r => r.delivery_country)).foldl addSet [] := by
    unfold specificDateCountries
    rw [specificScan_eq]
  have hlen : (specificDateResults jsDate orders target).length
      = (orders.filter (specificHitB jsDate target)).length := by
    rw [hres, List.length_map]
  refine ⟨?_, hlen, ?_⟩
  · show (if (specificDateResults jsDate orders target).length = 0
        then "No orders found for " ++ target
        else "Orders on " ++ target ++ ":\n- Countries: " ++
          String.intercalate ", " (stableSort jsStrLe (specificDateCountries jsDate orders target)) ++
          "\n- Total orders: " ++ natToDec (specificDateResults jsDate orders target).length ++
          "\n- Order details: " ++
          String.intercalate ", "
            (((specificDateResults jsDate orders target).take 5).map
              (fun q => q.orderId ++ " (" ++ q.country ++ ")")) ++
          (if 5 < (specificDateResults jsDate orders target).length then "..." else ""))
        = "No orders found for " ++ target
      ↔ orders.filter (specificHitB jsDate target) = []
    by_cases hz : (specificDateResults jsDate orders target).length = 0
    · rw [if_pos hz]
      have hfil : orders.filter (specificHitB jsDate target) = [] :=
        List.length_eq_zero.mp (by omega)
      simp [hfil]
    · rw [if_neg hz]
      constructor
      · intro habs
        exact absurd habs (specific_populated_ne_noOrders target _ _ _ _)
      · intro hfil
        exfalso
        rw [hlen, hfil] at hz
        exact hz rfl
  · intro c
    rw [hcty, mem_foldl_addSet]
    simp only [List.not_mem_nil, false_or, List.mem_map, List.mem_filter]
    constructor
    · rintro ⟨r, ⟨hr, hhit⟩, rfl⟩
      rcases (specificHitB_iff jsDate target r).mp hhit with ⟨hiso, hne⟩
      exact ⟨r, hr, hiso, rfl, hne⟩
    · rintro ⟨r, hr, hiso, rfl, hne⟩
      exact ⟨r, ⟨hr, (specificHitB_iff jsDate target r).mpr ⟨hiso, hne⟩⟩, rfl⟩

/-- C1 counterexample: both scenario-1 rows resolve to 2024-01-05 yet carry
no delivery country, and the function answers 'No orders found' — refuting
the claimed iff and the claimed empty-country-set report for that date. -/
theorem c1_empty_country_counterexample :
    calculateSpecificDate parseISO demoC1 "2024-01-05"
      = "No orders found for 2024-01-05"
    ∧ isoDayOfRec parseISO (demoC1.headD {}) = some "2024-01-05"
    ∧ demoC1.length = 2 := by
  refine ⟨by decide, by decide, by decide⟩

/-! ## Claim C5 -/

/-- C5 (amended): the monthly breakdown contains exactly one bucket per
distinct year-month key occurring among records with a resolvable date —
across all years present in the data — only resolvable records participate,
and the buckets are emitted sorted ascending by string comparison of the
`year-month` keys.  String order agrees with chronological order only for
four-digit years; the counterexample shows a three-digit-year bucket
emitted after a chronologically later one. -/
theorem c5_monthly_buckets (jsDate : String → Option Int) (tz : Int)
    (orders : List NormalizedOrderData) :
    (keysOf (monthlyEntriesSorted jsDate tz orders)).Nodup
    ∧ (∀ k, k ∈ keysOf (monthlyEntriesSorted jsDate tz orders) ↔
        ∃ r ∈ orders, monthKeyOfRec jsDate tz r = some k)
    ∧ (keysOf (monthlyEntriesSorted jsDate tz orders)).Pairwise
        (fun a b => jsStrLe a b = true) := by
  have hperm : (keysOf (monthlyEntriesSorted jsDate tz orders)).Perm
      (keysOf (monthlyData jsDate tz orders)) :=
    (stableSort_perm ascByKey (monthlyData jsDate tz orders)).map Prod.fst
  refine ⟨?_, ?_, ?_⟩
  · rw [hperm.nodup_iff]
    exact nodup_keysOf_groupFold _ _ _ _
  · intro k
    rw [hperm.mem_iff]
    exact mem_keysOf_groupFold _ _ _ _ k
  · have hp := pairwise_stableSort ascByKey (fun a b => jsStrLe_total a.1 b.1)
      (fun a b c => jsStrLe_trans a.1 b.1 c.1) (monthlyData jsDate tz orders)
    unfold monthlyEntriesSorted keysOf
    rw [List.pairwise_map]
    exact hp

/-- C5 counterexample: with a record in year 999 (February) and one in year
1000 (January), the unpadded-year keys sort as `1000-01` before `999-02`,
while the bucket month pairs are `(1000, 1)` and `(999, 2)` with
`999 < 1000` — so the emitted order is not chronologically ascending. -/
theorem c5_chronology_counterexample :
    keysOf (monthlyEntriesSorted parseISO 0 demoC5) = ["1000-01", "999-02"]
    ∧ monthPairOfRec parseISO 0 demoC5r999 = some (999, 2)
    ∧ monthPairOfRec parseISO 0 demoC5r1000 = some (1000, 1)
    ∧ monthKeyOfRec parseISO 0 demoC5r999 = some "999-02"
    ∧ monthKeyOfRec parseISO 0 demoC5r1000 = some "1000-01"
    ∧ (999 : Int) < 1000 := by
  refine ⟨by decide, by decide, by decide, by decide, by decide, by decide⟩

/-! ## Claim C2 -/

/-- Helper: a summed-quantity group value is non-negative and bounded by the
dimension total, provided record quantities are non-negative. -/
theorem groupVal_addQty_bounds (key : NormalizedOrderData → Option String)
    (orders : List NormalizedOrderData) (h : ∀ r ∈ orders, 0 ≤ r.item_quantity)
    (k : String) (q : Int) (hmem : (k, q) ∈ groupFold key addQtyUpd 0 orders) :
    0 ≤ q ∧ q ≤ ((groupFold key addQtyUpd 0 orders).map (fun p => p.2)).sum := by
  have hnd := nodup_keysOf_groupFold key addQtyUpd 0 orders
  have hlk := (mem_assoc_iff_lookupA hnd k q).mp hmem
  rw [lookupA_groupFold] at hlk
  by_cases hemp : (orders.filter (fun r => key r = some k)).isEmpty
  · rw [if_pos hemp] at hlk
    cases hlk
  · rw [if_neg hemp] at hlk
    have hq := Option.some.inj hlk
    have hqs : q = ((orders.filter (fun r => key r = some k)).map
        (fun r => r.item_quantity)).sum := by
      rw [← hq, foldl_addQtyUpd]
      simp
    have hsubpos : ∀ r ∈ orders.filter (fun r => key r = some k), 0 ≤ r.item_quantity :=
      fun r hr => h r (List.mem_of_mem_filter hr)
    have htot : ((groupFold key addQtyUpd 0 orders).map (fun p => p.2)).sum
        = ((orders.filter (fun r => (key r).isSome)).map (fun r => r.item_quantity)).sum :=
      sum_map_groupFold key addQtyUpd 0 (fun x => x) (fun r => r.item_quantity)
        (fun r b => rfl) rfl orders
    have hsplit := sum_map_filter_split orders (fun r => (key r).isSome)
      (fun r => decide (key r = some k)) (fun r => r.item_quantity)
    rw [filter_isSome_and_eq] at hsplit
    have hcomp : 0 ≤ ((orders.filter
        (fun r => (key r).isSome && !decide (key r = some k))).map
          (fun r => r.item_quantity)).sum :=
      sum_map_nonneg _ _ (fun r hr => h r (List.mem_of_mem_filter hr))
    constructor
    · rw [hqs]
      exact sum_map_nonneg _ _ hsubpos
    · rw [hqs, htot, hsplit]
      omega

/-- Helper: the `items` component of a `{count, items}` group value is
non-negative and bounded by the dimension total, provided record quantities
are non-negative. -/
theorem groupVal_countItems_bounds (key : NormalizedOrderData → Option String)
    (orders : List NormalizedOrderData) (h : ∀ r ∈ orders, 0 ≤ r.item_quantity)
    (k : String) (ci : CountItems)
    (hmem : (k, ci) ∈ groupFold key countItemsUpd ⟨0, 0⟩ orders) :
    0 ≤ ci.items
      ∧ ci.items ≤ ((groupFold key countItemsUpd ⟨0, 0⟩ orders).map
          (fun p => p.2.items)).sum := by
  have hnd := nodup_keysOf_groupFold key countItemsUpd (⟨0, 0⟩ : CountItems) orders
  have hlk := (mem_assoc_iff_lookupA hnd k ci).mp hmem
  rw [lookupA_groupFold] at hlk
  by_cases hemp : (orders.filter (fun r => key r = some k)).isEmpty
  · rw [if_pos hemp] at hlk
    cases hlk
  · rw [if_neg hemp] at hlk
    have hq := Option.some.inj hlk
    have hqs : ci.items = ((orders.filter (fun r => key r = some k)).map
        (fun r => r.item_quantity)).sum := by
      rw [← hq, foldl_countItemsUpd_items]
      simp
    have hsubpos : ∀ r ∈ orders.filter (fun r => key r = some k), 0 ≤ r.item_quantity :=
      fun r hr => h r (List.mem_of_mem_filter hr)
    have htot : ((groupFold key countItemsUpd ⟨0, 0⟩ orders).map (fun p => p.2.items)).sum
        = ((orders.filter (fun r => (key r).isSome)).map (fun r => r.item_quantity)).sum :=
      sum_map_groupFold key countItemsUpd ⟨0, 0⟩ (fun c => c.items) (fun r => r.item_quantity)
        (fun r b => rfl) rfl orders
    have hsplit := sum_map_filter_split orders (fun r => (key r).isSome)
      (fun r => decide (key r = some k)) (fun r => r.item_quantity)
    rw [filter_isSome_and_eq] at hsplit
    have hcomp : 0 ≤ ((orders.filter
        (fun r => (key r).isSome && !decide (key r = some k))).map
          (fun r => r.item_quantity)).sum :=
      sum_map_nonneg _ _ (fun r hr => h r (List.mem_of_mem_filter hr))
    constructor
    · rw [hqs]
      exact sum_map_nonneg _ _ hsubpos
    · rw [hqs, htot, hsplit]
      omega

/-- C2 (amended): in the attribute, marketplace and country share lists
(the product breakdown prints no percentages), whenever the dimension total
is non-zero each rendered share is `summedQuantity / dimensionTotal * 100`
rounded to one decimal place — embedded as an integer number of tenths of a
percent equal to `⌊quantity / total * 1000 + 1/2⌋` — and lies in `[0, 100]`
(0 to 1000 tenths), given non-negative record quantities.  When the
dimension total is zero, the code divides anyway and the rendered share is
the non-finite result of a division by zero (`none`), not the 0 the claim
requires (see the counterexample). -/
theorem c2_percentage_shares (orders : List NormalizedOrderData)
    (h : ∀ r ∈ orders, 0 ≤ r.item_quantity) :
    (totalAttributeQuantity orders = 0 → ∀ p ∈ attrShares orders, p.2.2 = none)
    ∧ (∀ p ∈ attrShares orders, totalAttributeQuantity orders ≠ 0 →
        ∃ v : Int, p.2.2 = some v ∧ 0 ≤ v ∧ v ≤ 1000
          ∧ (v : ℚ) = ⌊(p.2.1 : ℚ) / (totalAttributeQuantity orders : ℚ) * 100 * 10 + 1 / 2⌋)
    ∧ (totalMarketplaceQuantity orders = 0 → ∀ p ∈ mpShares orders, p.2.2 = none)
    ∧ (∀ p ∈ mpShares orders, totalMarketplaceQuantity orders ≠ 0 →
        ∃ v : Int, p.2.2 = some v ∧ 0 ≤ v ∧ v ≤ 1000
          ∧ (v : ℚ) = ⌊(p.2.1 : ℚ) / (totalMarketplaceQuantity orders : ℚ) * 100 * 10 + 1 / 2⌋)
    ∧ (totalCountryQuantity orders = 0 → ∀ p ∈ countryShares orders, p.2.2 = none)
    ∧ (∀ p ∈ countryShares orders, totalCountryQuantity orders ≠ 0 →
        ∃ v : Int, p.2.2 = some v ∧ 0 ≤ v ∧ v ≤ 1000
          ∧ (v : ℚ) = ⌊(p.2.1 : ℚ) / (totalCountryQuantity orders : ℚ) * 100 * 10 + 1 / 2⌋) := by
  have htotA : 0 ≤ totalAttributeQuantity orders := by
    have htot' : totalAttributeQuantity orders
        = ((orders.filter (fun r =>
            ((if r.attribute ≠ "" then some (jsTrim r.attribute) else none) :
              Option String).isSome)).map (fun r => r.item_quantity)).sum :=
      sum_map_groupFold _ addQtyUpd 0 (fun x => x) (fun r => r.item_quantity)
        (fun r b => rfl) rfl orders
    rw [htot']
    exact sum_map_nonneg _ _ (fun r hr => h r (List.mem_of_mem_filter hr))
  have htotM : 0 ≤ totalMarketplaceQuantity orders := by
    have htot' : totalMarketplaceQuantity orders
        = ((orders.filter (fun r =>
            ((if r.marketplace ≠ "" then some (jsTrim r.marketplace) else none) :
              Option String).isSome)).map (fun r => r.item_quantity)).sum :=
      sum_map_groupFold _ countItemsUpd ⟨0, 0⟩ (fun c => c.items) (fun r => r.item_quantity)
        (fun r b => rfl) rfl orders
    rw [htot']
    exact sum_map_nonneg _ _ (fun r hr => h r (List.mem_of_mem_filter hr))
  have htotC : 0 ≤ totalCountryQuantity orders := by
    have htot' : totalCountryQuantity orders
        = ((orders.filter (fun r =>
            ((if r.delivery_country ≠ "" then some (jsTrim r.delivery_country) else none) :
              Option String).isSome)).map (fun r => r.item_quantity)).sum :=
      sum_map_groupFold _ countItemsUpd ⟨0, 0⟩ (fun c => c.items) (fun r => r.item_quantity)
        (fun r b => rfl) rfl orders
    rw [htot']
    exact sum_map_nonneg _ _ (fun r hr => h r (List.mem_of_mem_filter hr))
  refine ⟨?_, ?_, ?_, ?_, ?_, ?_⟩
  · intro h0 p hp
    rcases List.mem_map.mp hp with ⟨e, he, rfl⟩
    show pctTenths e.2 (totalAttributeQuantity orders) = none
    rw [h0]
    unfold pctTenths
    rw [if_pos rfl]
  · intro p hp hne
    rcases List.mem_map.mp hp with ⟨e, he, rfl⟩
    have hed : e ∈ attributeData orders :=
      (mem_stableSort descByVal (attributeData orders) e).mp (List.take_subset _ _ he)
    have hb := groupVal_addQty_bounds
      (fun r => if r.attribute ≠ "" then some (jsTrim r.attribute) else none)
      orders h e.1 e.2 hed
    have hpos : 0 < totalAttributeQuantity orders := lt_of_le_of_ne htotA (Ne.symm hne)
    exact pctTenths_bounds e.2 (totalAttributeQuantity orders) hb.1 hb.2 hpos
  · intro h0 p hp
    rcases List.mem_map.mp hp with ⟨e, he, rfl⟩
    show pctTenths e.2.items (totalMarketplaceQuantity orders) = none
    rw [h0]
    unfold pctTenths
    rw [if_pos rfl]
  · intro p hp hne
    rcases List.mem_map.mp hp with ⟨e, he, rfl⟩
    have hed : e ∈ marketplaceData orders :=
      (mem_stableSort descByItems (marketplaceData orders) e).mp (List.take_subset _ _ he)
    have hb := groupVal_countItems_bounds
      (fun r => if r.marketplace ≠ "" then some (jsTrim r.marketplace) else none)
      orders h e.1 e.2 hed
    have hpos : 0 < totalMarketplaceQuantity orders := lt_of_le_of_ne htotM (Ne.symm hne)
    exact pctTenths_bounds e.2.items (totalMarketplaceQuantity orders) hb.1 hb.2 hpos
  · intro h0 p hp
    rcases List.mem_map.mp hp with ⟨e, he, rfl⟩
    show pctTenths e.2.items (totalCountryQuantity orders) = none
    rw [h0]
    unfold pctTenths
    rw [if_pos rfl]
  · intro p hp hne
    rcases List.mem_map.mp hp with ⟨e, he, rfl⟩
    have hed : e ∈ countryData orders :=
      (mem_stableSort descByItems (countryData orders) e).mp (List.take_subset _ _ he)
    have hb := groupVal_countItems_bounds
      (fun r => if r.delivery_country ≠ "" then some (jsTrim r.delivery_country) else none)
      orders h e.1 e.2 hed
    have hpos : 0 < totalCountryQuantity orders := lt_of_le_of_ne htotC (Ne.symm hne)
    exact pctTenths_bounds e.2.items (totalCountryQuantity orders) hb.1 hb.2 hpos

/-- C2 counterexample: one attribute group of quantity 0 makes the dimension
total 0; the rendered share is the non-finite division result (`none`
in the embedding), not the 0 the claim specifies. -/
theorem c2_zero_total_counterexample :
    attrShares demoC2zero = [("Red", 0, (none : Option Int))]
    ∧ (none : Option Int) ≠ some 0 := by
  exact ⟨by decide, by decide⟩

/-- C2 witness: a single attribute group of quantity 1 renders the share
`100.0%` (1000 tenths), within bounds and equal to the rounded ratio. -/
theorem c2_percentage_shares_witness :
    ∃ v : Int,
      ("Red", (1 : Int), pctTenths 1 (totalAttributeQuantity demoC2pos)).2.2 = some v
      ∧ 0 ≤ v ∧ v ≤ 1000
      ∧ (v : ℚ) = ⌊((("Red", (1 : Int), pctTenths 1 (totalAttributeQuantity demoC2pos)).2.1 : ℚ))
          / (totalAttributeQuantity demoC2pos : ℚ) * 100 * 10 + 1 / 2⌋ :=
  (c2_percentage_shares demoC2pos (by decide)).2.1
    ("Red", 1, pctTenths 1 (totalAttributeQuantity demoC2pos)) (by decide) (by decide)

/-! ## Claim C9 -/

/-- C9: the specific-date lookup decides equality against the UTC calendar
day (the ISO-string prefix of the parsed timestamp), while monthly and daily
bucketing use local-time components; consequently, under every non-zero
host UTC offset (within the real-world ±14 h range) there is a record whose
order date carries a non-zero UTC offset and which the specific-date lookup
assigns to a different calendar day (indeed a different month) than
local-time bucketing does. -/
theorem c9_utc_vs_local_day (tz : Int) (h0 : tz ≠ 0) (h1 : -840 ≤ tz) (h2 : tz ≤ 840) :
    ∃ (r : NormalizedOrderData) (t off : Int) (u v mk : String),
      parseISOPair r.order_date = some (t, off) ∧ off ≠ 0
      ∧ isoDayOfRec parseISO r = some u
      ∧ dailyKeyOfRec parseISO tz r = some v
      ∧ monthKeyOfRec parseISO tz r = some mk
      ∧ u ≠ v := by
  rcases lt_or_gt_of_ne h0 with hneg | hpos
  · refine ⟨demoC9neg, daysFromCivil 2024 2 1 * 1440, 60,
      "2024-02-01", "2024-01-31", "2024-01", by decide, by decide, by decide, ?_, ?_, by decide⟩
    · have hshift : (daysFromCivil 2024 2 1 * 1440 + tz).fdiv 1440
          = daysFromCivil 2024 2 1 - 1 :=
        fdiv_1440_neg_shift _ tz h1 (by omega)
      have hres : resolveDate parseISO demoC9neg
          = some (daysFromCivil 2024 2 1 * 1440) := by decide
      unfold dailyKeyOfRec
      rw [hres]
      have hciv : localCivil tz (daysFromCivil 2024 2 1 * 1440) = (2024, 1, 31) := by
        unfold localCivil
        rw [hshift]
        decide
      unfold dailyKeyStr monthKeyStr getFullYear getMonth1 getDate
      simp only [Option.map_some']
      rw [hciv]
      decide
    · have hshift : (daysFromCivil 2024 2 1 * 1440 + tz).fdiv 1440
          = daysFromCivil 2024 2 1 - 1 :=
        fdiv_1440_neg_shift _ tz h1 (by omega)
      have hres : resolveDate parseISO demoC9neg
          = some (daysFromCivil 2024 2 1 * 1440) := by decide
      unfold monthKeyOfRec
      rw [hres]
      have hciv : localCivil tz (daysFromCivil 2024 2 1 * 1440) = (2024, 1, 31) := by
        unfold localCivil
        rw [hshift]
        decide
      unfold monthKeyStr getFullYear getMonth1
      simp only [Option.map_some']
      rw [hciv]
      decide
  · refine ⟨demoC9pos, daysFromCivil 2024 1 31 * 1440 + 1439, 60,
      "2024-01-31", "2024-02-01", "2024-02", by decide, by decide, by decide, ?_, ?_, by decide⟩
    · have hshift : (daysFromCivil 2024 1 31 * 1440 + 1439 + tz).fdiv 1440
          = daysFromCivil 2024 1 31 + 1 :=
        fdiv_1440_pos_shift _ tz (by omega) h2
      have hres : resolveDate parseISO demoC9pos
          = some (daysFromCivil 2024 1 31 * 1440 + 1439) := by decide
      unfold dailyKeyOfRec
      rw [hres]
      have hciv : localCivil tz (daysFromCivil 2024 1 31 * 1440 + 1439) = (2024, 2, 1) := by
        unfold localCivil
        rw [hshift]
        decide
      unfold dailyKeyStr monthKeyStr getFullYear getMonth1 getDate
      simp only [Option.map_some']
      rw [hciv]
      decide
    · have hshift : (daysFromCivil 2024 1 31 * 1440 + 1439 + tz).fdiv 1440
          = daysFromCivil 2024 1 31 + 1 :=
        fdiv_1440_pos_shift _ tz (by omega) h2
      have hres : resolveDate parseISO demoC9pos
          = some (daysFromCivil 2024 1 31 * 1440 + 1439) := by decide
      unfold monthKeyOfRec
      rw [hres]
      have hciv : localCivil tz (daysFromCivil 2024 1 31 * 1440 + 1439) = (2024, 2, 1) := by
        unfold localCivil
        rw [hshift]
        decide
      unfold monthKeyStr getFullYear getMonth1
      simp only [Option.map_some']
      rw [hciv]
      decide

/-- C9 witness: at host offset +60 minutes the divergent record exists. -/
theorem c9_utc_vs_local_day_witness :
    ∃ (r : NormalizedOrderData) (t off : Int) (u v mk : String),
      parseISOPair r.order_date = some (t, off) ∧ off ≠ 0
      ∧ isoDayOfRec parseISO r = some u
      ∧ dailyKeyOfRec parseISO 60 r = some v
      ∧ monthKeyOfRec parseISO 60 r = some mk
      ∧ u ≠ v :=
  c9_utc_vs_local_day 60 (by decide) (by decide) (by decide)
